import Mathlib

/-
Verification of the reconcile-and-update engine of the municipal
synchronization scripts (contacts, documents, newspapers).

The Python code is shallowly embedded:
  * Python dicts are modelled as insertion-ordered association lists
    (`List (κ × α)`) with unique keys maintained by `alSet`; iteration
    order of a dict is the list order, matching CPython semantics.
  * Python `None` propagating through optional values is `Option`.
  * An uncaught Python exception is modelled by an `Option`/`Except`
    result of the surrounding function.
  * Strings are Lean `String`; the Python string methods used by the
    code (strip, lower, startswith, endswith) are re-implemented over
    `List Char` so that they evaluate by kernel reduction. Character
    classes of the regular expressions are modelled over their ASCII
    range (plus explicitly written Unicode ranges); the properties
    proved here only rely on the ASCII behaviour.
-/

set_option maxHeartbeats 1000000

/-! ## Association lists with Python-dict semantics -/

/-- Membership test for a key, Python `k in d`. -/
def alHas {κ α : Type} [BEq κ] (d : List (κ × α)) (k : κ) : Bool :=
  d.any (fun p => p.1 == k)

/-- Lookup, Python `d.get(k)` / `d[k]` (keys are unique by construction). -/
def alGet {κ α : Type} [BEq κ] (d : List (κ × α)) (k : κ) : Option α :=
  (d.find? (fun p => p.1 == k)).map Prod.snd

/-- Python dict assignment `d[k] = v`: overwrite in place keeping the original
position of the key, append at the end when the key is new. -/
def alSet {κ α : Type} [BEq κ] : List (κ × α) → κ → α → List (κ × α)
  | [], k, v => [(k, v)]
  | p :: t, k, v => if p.1 == k then (k, v) :: t else p :: alSet t k v

/-- Build a dict from a sequence of key/value pairs, later pairs overwriting
earlier ones (Python dict comprehension over a sequence). -/
def alOf {κ α : Type} [BEq κ] (l : List (κ × α)) : List (κ × α) :=
  l.foldl (fun d p => alSet d p.1 p.2) []

/-- The keys of a dict in iteration order. -/
def alKeys {κ α : Type} (d : List (κ × α)) : List κ :=
  d.map Prod.fst

/-- Last-wins lookup over a raw (possibly duplicated) pair sequence. -/
def lookupLast {κ α : Type} [BEq κ] (l : List (κ × α)) (k : κ) : Option α :=
  (l.reverse.find? (fun p => p.1 == k)).map Prod.snd

/-- First-seen-order deduplication of a key sequence. -/
def dedupFirst {κ : Type} [BEq κ] (l : List κ) : List κ :=
  l.foldl (fun acc k => if acc.contains k then acc else acc ++ [k]) []

theorem alHas_nil {κ α : Type} [BEq κ] (k : κ) :
    alHas ([] : List (κ × α)) k = false := rfl

theorem alHas_cons {κ α : Type} [BEq κ] (p : κ × α) (t : List (κ × α)) (k : κ) :
    alHas (p :: t) k = (p.1 == k || alHas t k) := by
  simp [alHas]

theorem alGet_nil {κ α : Type} [BEq κ] (k : κ) :
    alGet ([] : List (κ × α)) k = none := rfl

theorem alGet_cons {κ α : Type} [BEq κ] (p : κ × α) (t : List (κ × α)) (k : κ) :
    alGet (p :: t) k = if p.1 == k then some p.2 else alGet t k := by
  by_cases h : (p.1 == k) = true
  · simp [alGet, List.find?_cons_of_pos, h]
  · simp only [Bool.not_eq_true] at h
    simp [alGet, List.find?_cons_of_neg, h]

theorem alHas_iff_mem_keys {κ α : Type} [BEq κ] [LawfulBEq κ]
    (d : List (κ × α)) (k : κ) : alHas d k = true ↔ k ∈ alKeys d := by
  induction d with
  | nil => simp [alHas_nil, alKeys]
  | cons p t ih =>
    simp only [alHas_cons, Bool.or_eq_true, beq_iff_eq, ih, alKeys, List.map_cons,
      List.mem_cons]
    constructor
    · rintro (h | h)
      · exact Or.inl h.symm
      · exact Or.inr h
    · rintro (h | h)
      · exact Or.inl h.symm
      · exact Or.inr h

theorem alGet_isSome_iff {κ α : Type} [BEq κ] [LawfulBEq κ]
    (d : List (κ × α)) (k : κ) : (alGet d k).isSome = alHas d k := by
  induction d with
  | nil => simp [alGet_nil, alHas_nil]
  | cons p t ih =>
    rw [alGet_cons, alHas_cons]
    by_cases h : (p.1 == k) = true
    · simp [h]
    · simp only [Bool.not_eq_true] at h
      simp [h, ih]

theorem alGet_alSet_self {κ α : Type} [BEq κ] [LawfulBEq κ]
    (d : List (κ × α)) (k : κ) (v : α) : alGet (alSet d k v) k = some v := by
  induction d with
  | nil => simp [alSet, alGet_cons]
  | cons p t ih =>
    by_cases h : (p.1 == k) = true
    · simp [alSet, h, alGet_cons]
    · simp only [Bool.not_eq_true] at h
      simp [alSet, h, alGet_cons, ih]

theorem alGet_alSet_ne {κ α : Type} [BEq κ] [LawfulBEq κ]
    (d : List (κ × α)) (k k' : κ) (v : α) (h : k' ≠ k) :
    alGet (alSet d k v) k' = alGet d k' := by
  have hkk : (k == k') = false := by
    simp [beq_eq_false_iff_ne]
    exact fun hc => h hc.symm
  induction d with
  | nil => simp [alSet, alGet_cons, alGet_nil, hkk]
  | cons p t ih =>
    by_cases hp : (p.1 == k) = true
    · have hpk : p.1 = k := by simpa using hp
      have hp' : (p.1 == k') = false := by
        simp [hpk, beq_eq_false_iff_ne]
        exact fun hc => h hc.symm
      simp [alSet, hp, alGet_cons, hkk, hp']
    · simp only [Bool.not_eq_true] at hp
      simp only [alSet, hp, Bool.false_eq_true, if_false]
      rw [alGet_cons, alGet_cons, ih]

theorem alKeys_alSet {κ α : Type} [BEq κ] [LawfulBEq κ]
    (d : List (κ × α)) (k : κ) (v : α) :
    alKeys (alSet d k v) = if alHas d k then alKeys d else alKeys d ++ [k] := by
  induction d with
  | nil => simp [alSet, alKeys, alHas_nil]
  | cons p t ih =>
    by_cases h : (p.1 == k) = true
    · have : p.1 = k := by simpa using h
      simp [alSet, h, alKeys, alHas_cons, this]
    · simp only [Bool.not_eq_true] at h
      simp only [alSet, h, Bool.false_eq_true, if_false, alHas_cons, Bool.false_or]
      by_cases ht : alHas t k = true
      · simp only [alKeys, List.map_cons] at ih ⊢
        simp [ht] at ih
        simp [ht, ih]
      · simp only [Bool.not_eq_true] at ht
        simp only [alKeys, List.map_cons] at ih ⊢
        simp [ht] at ih
        simp [ht, ih]

theorem alKeys_nodup_alSet {κ α : Type} [BEq κ] [LawfulBEq κ]
    (d : List (κ × α)) (k : κ) (v : α) (h : (alKeys d).Nodup) :
    (alKeys (alSet d k v)).Nodup := by
  rw [alKeys_alSet]
  by_cases hh : alHas d k = true
  · simpa [hh]
  · simp only [Bool.not_eq_true] at hh
    simp only [hh, Bool.false_eq_true, if_false]
    rw [List.nodup_append]
    refine ⟨h, List.nodup_singleton _, ?_⟩
    intro a ha hb
    simp only [List.mem_singleton] at hb
    subst hb
    rw [← alHas_iff_mem_keys] at ha
    simp [ha] at hh

theorem alHas_eq_contains {κ α : Type} [BEq κ] [LawfulBEq κ]
    (d : List (κ × α)) (k : κ) : alHas d k = (alKeys d).contains k := by
  have h1 := alHas_iff_mem_keys d k
  have h2 : (alKeys d).contains k = true ↔ k ∈ alKeys d := by
    simp [List.contains, List.elem_iff]
  cases h : alHas d k with
  | false =>
    cases hc : (alKeys d).contains k with
    | false => rfl
    | true =>
      exact absurd (h2.mp hc) (fun hmem => by simp [h1.mpr hmem] at h)
  | true =>
    cases hc : (alKeys d).contains k with
    | false =>
      have hct := h2.mpr (h1.mp h)
      rw [hc] at hct
      cases hct
    | true => rfl

theorem lookupLast_nil {κ α : Type} [BEq κ] (k : κ) :
    lookupLast ([] : List (κ × α)) k = none := rfl

theorem lookupLast_cons {κ α : Type} [BEq κ] (p : κ × α) (t : List (κ × α)) (k : κ) :
    lookupLast (p :: t) k
      = (lookupLast t k).or (if p.1 == k then some p.2 else none) := by
  unfold lookupLast
  rw [List.reverse_cons, List.find?_append]
  cases hf : List.find? (fun q => q.1 == k) t.reverse with
  | some q => simp [hf]
  | none =>
    by_cases h : (p.1 == k) = true
    · simp [hf, List.find?, h]
    · simp only [Bool.not_eq_true] at h
      simp [hf, List.find?, h]

theorem alGet_foldl_alSet {κ α : Type} [BEq κ] [LawfulBEq κ]
    (l : List (κ × α)) (d : List (κ × α)) (k : κ) :
    alGet (l.foldl (fun d p => alSet d p.1 p.2) d) k
      = (lookupLast l k).or (alGet d k) := by
  induction l generalizing d with
  | nil => simp [lookupLast_nil]
  | cons p t ih =>
    rw [List.foldl_cons, ih, lookupLast_cons, Option.or_assoc]
    congr 1
    by_cases h : p.1 = k
    · subst h
      rw [alGet_alSet_self]
      simp
    · rw [alGet_alSet_ne d p.1 k p.2 (fun hc => h hc.symm)]
      have hb : (p.1 == k) = false := by simpa [beq_eq_false_iff_ne] using h
      simp [hb]

theorem alGet_alOf {κ α : Type} [BEq κ] [LawfulBEq κ] (l : List (κ × α)) (k : κ) :
    alGet (alOf l) k = lookupLast l k := by
  unfold alOf
  rw [alGet_foldl_alSet]
  simp [alGet_nil]

theorem alKeys_foldl_alSet {κ α : Type} [BEq κ] [LawfulBEq κ]
    (l : List (κ × α)) (d : List (κ × α)) :
    alKeys (l.foldl (fun d p => alSet d p.1 p.2) d)
      = (l.map Prod.fst).foldl
          (fun acc k => if acc.contains k then acc else acc ++ [k]) (alKeys d) := by
  induction l generalizing d with
  | nil => rfl
  | cons p t ih =>
    rw [List.foldl_cons, ih, alKeys_alSet, alHas_eq_contains, List.map_cons,
      List.foldl_cons]

theorem alKeys_alOf {κ α : Type} [BEq κ] [LawfulBEq κ] (l : List (κ × α)) :
    alKeys (alOf l) = dedupFirst (l.map Prod.fst) := by
  unfold alOf dedupFirst
  rw [alKeys_foldl_alSet]
  rfl

theorem mem_alSet {κ α : Type} [BEq κ] (d : List (κ × α)) (k : κ) (v : α)
    (p : κ × α) (h : p ∈ alSet d k v) : p = (k, v) ∨ p ∈ d := by
  induction d with
  | nil => simpa [alSet] using h
  | cons q t ih =>
    by_cases hq : (q.1 == k) = true
    · simp only [alSet, hq, if_pos] at h
      rcases List.mem_cons.mp h with h | h
      · exact Or.inl h
      · exact Or.inr (List.mem_cons_of_mem _ h)
    · simp only [Bool.not_eq_true] at hq
      simp only [alSet, hq, Bool.false_eq_true, if_false] at h
      rcases List.mem_cons.mp h with h | h
      · exact Or.inr (h ▸ List.mem_cons_self _ _)
      · rcases ih h with h | h
        · exact Or.inl h
        · exact Or.inr (List.mem_cons_of_mem _ h)

theorem mem_foldl_alSet {κ α : Type} [BEq κ]
    (l : List (κ × α)) (d : List (κ × α)) (p : κ × α)
    (h : p ∈ l.foldl (fun d q => alSet d q.1 q.2) d) : p ∈ d ∨ p ∈ l := by
  induction l generalizing d with
  | nil => exact Or.inl h
  | cons q t ih =>
    rw [List.foldl_cons] at h
    rcases ih _ h with h | h
    · rcases mem_alSet _ _ _ _ h with h | h
      · exact Or.inr (h ▸ List.mem_cons_self _ _)
      · exact Or.inl h
    · exact Or.inr (List.mem_cons_of_mem _ h)

theorem mem_alOf {κ α : Type} [BEq κ] (l : List (κ × α)) (p : κ × α)
    (h : p ∈ alOf l) : p ∈ l := by
  rcases mem_foldl_alSet l [] p h with h | h
  · simp at h
  · exact h

theorem mem_foldl_dedup {κ : Type} [BEq κ] [LawfulBEq κ]
    (l : List κ) (acc : List κ) (k : κ) :
    k ∈ l.foldl (fun acc k => if acc.contains k then acc else acc ++ [k]) acc
      ↔ k ∈ acc ∨ k ∈ l := by
  induction l generalizing acc with
  | nil => simp
  | cons a t ih =>
    rw [List.foldl_cons, ih]
    by_cases h : acc.contains a = true
    · have ha : a ∈ acc := by simpa [List.contains, List.elem_iff] using h
      simp only [h, if_pos, List.mem_cons]
      constructor
      · rintro (h1 | h1)
        · exact Or.inl h1
        · exact Or.inr (Or.inr h1)
      · rintro (h1 | h1 | h1)
        · exact Or.inl h1
        · exact Or.inl (h1 ▸ ha)
        · exact Or.inr h1
    · simp only [Bool.not_eq_true] at h
      simp only [h, Bool.false_eq_true, if_false, List.mem_append,
        List.mem_singleton, List.mem_cons]
      tauto

theorem mem_dedupFirst {κ : Type} [BEq κ] [LawfulBEq κ] (l : List κ) (k : κ) :
    k ∈ dedupFirst l ↔ k ∈ l := by
  unfold dedupFirst
  rw [mem_foldl_dedup]
  simp

theorem mem_keys_alOf {κ α : Type} [BEq κ] [LawfulBEq κ] (l : List (κ × α)) (k : κ) :
    k ∈ alKeys (alOf l) ↔ k ∈ l.map Prod.fst := by
  rw [alKeys_alOf, mem_dedupFirst]

theorem alKeys_alOf_nodup {κ α : Type} [BEq κ] [LawfulBEq κ] (l : List (κ × α)) :
    (alKeys (alOf l)).Nodup := by
  unfold alOf
  have main : ∀ (d : List (κ × α)), (alKeys d).Nodup →
      (alKeys (l.foldl (fun d p => alSet d p.1 p.2) d)).Nodup := by
    induction l with
    | nil => exact fun d hd => hd
    | cons p t ih =>
      intro d hd
      rw [List.foldl_cons]
      exact ih _ (alKeys_nodup_alSet _ _ _ hd)
  exact main [] (by simp [alKeys])

/-! ## contacts-app: data model (`contact_item.py`) -/

/-- A record as stored in the realtime database: a dict from field names to
string values (all fields of `ContactItem` are strings). -/
abbrev Record := List (String × String)

/-- `ContactItem` from `contact_item.py`; every field defaults to `None` in
the source constructor. -/
structure ContactItem where
  title : Option String
  subtitle : Option String
  address : Option String
  coordinates : Option String
  phone : Option String
  phone2 : Option String
  mail : Option String
  web : Option String
  facebook : Option String
  fbId : Option String
  fbUrl : Option String
  maintenance : Option String
deriving DecidableEq, Repr

/-- A `ContactItem` with every field `None`. -/
def emptyContact : ContactItem :=
  ⟨none, none, none, none, none, none, none, none, none, none, none, none⟩

/-- The `__dict__` of a `ContactItem` in attribute-assignment order. -/
def ContactItem.attrs (c : ContactItem) : List (String × Option String) :=
  [("title", c.title), ("subtitle", c.subtitle), ("address", c.address),
   ("coordinates", c.coordinates), ("phone", c.phone), ("phone2", c.phone2),
   ("mail", c.mail), ("web", c.web), ("facebook", c.facebook),
   ("fbId", c.fbId), ("fbUrl", c.fbUrl), ("maintenance", c.maintenance)]

/-- The filter of `ContactItem.to_dict`: keep `(k, v)` only when `v` is not
`None` and not the empty string. -/
def keepAttr : String × Option String → Option (String × String)
  | (k, some v) => if v = "" then none else some (k, v)
  | (_, none) => none

/-- `ContactItem.to_dict`: the dict of all attributes that are neither `None`
nor the empty string. -/
def ContactItem.to_dict (c : ContactItem) : Record :=
  c.attrs.filterMap keepAttr

/-! ## contacts-app: `ContactDataUpdater.update_contacts` -/

/-- The change summary built by `update_contacts`
(`changes` dict, minus the log-only per-field detail). -/
structure Changes where
  detected : Bool
  updates : List (Option Record)
  added : List (Option String)
  modified : List (Option String)
  removed : List (Option String)
deriving DecidableEq, Repr

/-- Merge of one existing record with its new counterpart: the inner
`for key, new_value in new_item.items()` loop of `update_contacts`.
Returns the merged record (existing copy overridden by the new fields) and
whether `item_changes` ended up non-empty. -/
def mergeItem (existingItem newItem : Record) : Record × Bool :=
  newItem.foldl
    (fun acc kv =>
      match alGet existingItem kv.1 with
      | none => (alSet acc.1 kv.1 kv.2, true)
      | some oldVal => (alSet acc.1 kv.1 kv.2, acc.2 || (oldVal != kv.2)))
    (existingItem, false)

/-- Accumulated result of the `for title, new_item in new_dict.items()` loop. -/
structure LoopAcc where
  updatesTail : List Record
  added : List (Option String)
  modified : List (Option String)
  changed : Bool
deriving DecidableEq, Repr

/-- The main loop of `update_contacts` over the entries of `new_dict`,
in iteration order. -/
def processNews (existingDict : List (Option String × Record)) :
    List (Option String × Record) → LoopAcc
  | [] => ⟨[], [], [], false⟩
  | (t, item) :: rest =>
    let r := processNews existingDict rest
    match alGet existingDict t with
    | none => ⟨item :: r.updatesTail, t :: r.added, r.modified, true⟩
    | some ex =>
      let m := mergeItem ex item
      ⟨m.1 :: r.updatesTail, r.added,
       if m.2 then t :: r.modified else r.modified, m.2 || r.changed⟩

/-- The `for title in existing_dict` loop collecting removed titles. -/
def removedTitles (existingDict newDict : List (Option String × Record)) :
    List (Option String) :=
  (alKeys existingDict).filter (fun t => !(alHas newDict t))

/-- Sequence a list of optionals; `none` models the `AttributeError` raised
by `item.get` when a stored entry is Python `None`. -/
def allSome {α : Type} : List (Option α) → Option (List α)
  | [] => some []
  | none :: _ => none
  | some a :: t => (allSome t).map (fun l => a :: l)

/-- `item.get('title')`. -/
def titleOf (r : Record) : Option String := alGet r "title"

/-- `{item.get('title'): item for item in items}`. -/
def buildTitleDict (items : List Record) : List (Option String × Record) :=
  alOf (items.map (fun it => (titleOf it, it)))

/-- Body of `update_contacts` once the stored items are at hand: build the
two title dicts, run the main loop, collect removals, and assemble the
`changes` summary. -/
def update_contacts_core (new_data_list : List Record)
    (exItems : List Record) : Changes :=
  let existing_dict := buildTitleDict exItems
  let new_dict := buildTitleDict new_data_list
  let pr := processNews existing_dict new_dict
  let rem := removedTitles existing_dict new_dict
  { detected := pr.changed || !rem.isEmpty
    updates := none :: pr.updatesTail.map some
    added := pr.added
    modified := pr.modified
    removed := rem }

/-- `ContactDataUpdater.update_contacts`, diff part: computes the `changes`
summary from the parsed contacts and the stored collection (a list whose
index 0 is the `None` placeholder; `None` overall when the route is empty).
Returns `none` when the stored tail contains a `None` entry (the dict
comprehension would raise). The Firebase write itself is `storeAfter`. -/
def update_contacts (new_contacts : List ContactItem)
    (existing_contacts : Option (List (Option Record))) : Option Changes :=
  let new_data_list := new_contacts.map ContactItem.to_dict
  let tail := match existing_contacts with
    | some l => l.drop 1
    | none => []
  (allSome tail).map (update_contacts_core new_data_list)

/-- The store contents after `update_contacts` ran: `ref.set(changes['updates'])`
happens iff `changes['detected']`; otherwise the store is untouched. -/
def storeAfter (existing : Option (List (Option Record))) (c : Changes) :
    Option (List (Option Record)) :=
  if c.detected then some c.updates else existing

/-! ## Lemmas about the merge loop -/

/-- Whether one new field counts as a change against the existing record
(field absent from the existing record, or present with a different value). -/
def chgField (ex : Record) (kv : String × String) : Bool :=
  match alGet ex kv.1 with
  | none => true
  | some oldVal => oldVal != kv.2

theorem mergeItem_foldl (ex : Record) (n : Record) :
    ∀ (m : Record) (b : Bool),
    n.foldl
      (fun acc kv =>
        match alGet ex kv.1 with
        | none => (alSet acc.1 kv.1 kv.2, true)
        | some oldVal => (alSet acc.1 kv.1 kv.2, acc.2 || (oldVal != kv.2)))
      (m, b)
    = (n.foldl (fun m kv => alSet m kv.1 kv.2) m, b || n.any (chgField ex)) := by
  induction n with
  | nil => intro m b; simp
  | cons kv t ih =>
    intro m b
    rw [List.foldl_cons, List.foldl_cons]
    have hstep :
        (match alGet ex kv.1 with
         | none => (alSet m kv.1 kv.2, true)
         | some oldVal => (alSet m kv.1 kv.2, b || (oldVal != kv.2)))
        = (alSet m kv.1 kv.2, b || chgField ex kv) := by
      unfold chgField
      cases alGet ex kv.1 with
      | none => simp
      | some oldVal => rfl
    rw [hstep, ih]
    simp [List.any_cons, Bool.or_assoc]

theorem mergeItem_eq (ex n : Record) :
    mergeItem ex n
      = (n.foldl (fun m kv => alSet m kv.1 kv.2) ex, n.any (chgField ex)) := by
  unfold mergeItem
  rw [mergeItem_foldl]
  simp

theorem alGet_mergeItem (ex n : Record) (k : String) :
    alGet (mergeItem ex n).1 k = (lookupLast n k).or (alGet ex k) := by
  rw [mergeItem_eq]
  exact alGet_foldl_alSet n ex k

/-! ## More association-list helpers -/

theorem find?_key_eq {κ α : Type} [BEq κ] [LawfulBEq κ]
    (d : List (κ × α)) (k : κ) (v : α) (h : alGet d k = some v) :
    d.find? (fun p => p.1 == k) = some (k, v) := by
  unfold alGet at h
  cases hf : d.find? (fun p => p.1 == k) with
  | none => rw [hf] at h; cases h
  | some p =>
    rw [hf] at h
    have hk : p.1 = k := by simpa using List.find?_some hf
    have hv : p.2 = v := by simpa using h
    cases p with
    | mk a b =>
      simp only at hk hv
      rw [hk, hv]

theorem alGet_mem {κ α : Type} [BEq κ] [LawfulBEq κ]
    (d : List (κ × α)) (k : κ) (v : α) (h : alGet d k = some v) : (k, v) ∈ d := by
  have := find?_key_eq d k v h
  exact List.mem_of_find?_eq_some this

theorem alGet_of_mem_nodup {κ α : Type} [BEq κ] [LawfulBEq κ]
    (d : List (κ × α)) (k : κ) (v : α) (hn : (alKeys d).Nodup)
    (h : (k, v) ∈ d) : alGet d k = some v := by
  induction d with
  | nil => simp at h
  | cons p t ih =>
    rcases List.mem_cons.mp h with h | h
    · rw [← h, alGet_cons]
      simp
    · have hk : k ∈ alKeys t := by
        simp only [alKeys, List.mem_map]
        exact ⟨(k, v), h, rfl⟩
      have hp : p.1 ≠ k := by
        intro hc
        rw [alKeys, List.map_cons, List.nodup_cons] at hn
        exact hn.1 (hc ▸ hk)
      have hb : (p.1 == k) = false := by simpa [beq_eq_false_iff_ne] using hp
      rw [alGet_cons, hb]
      simp only [Bool.false_eq_true, if_false]
      rw [alKeys, List.map_cons, List.nodup_cons] at hn
      exact ih hn.2 h

theorem lookupLast_eq_none_of_not_has {κ α : Type} [BEq κ]
    (l : List (κ × α)) (k : κ) (h : alHas l k = false) : lookupLast l k = none := by
  unfold lookupLast
  cases hf : l.reverse.find? (fun p => p.1 == k) with
  | none => rfl
  | some p =>
    have hp := List.find?_some hf
    have hm : p ∈ l := List.mem_reverse.mp (List.mem_of_find?_eq_some hf)
    have : alHas l k = true := by
      unfold alHas
      rw [List.any_eq_true]
      exact ⟨p, hm, hp⟩
    rw [this] at h
    cases h

theorem lookupLast_eq_alGet_of_nodup {κ α : Type} [BEq κ] [LawfulBEq κ]
    (l : List (κ × α)) (k : κ) (hn : (alKeys l).Nodup) :
    lookupLast l k = alGet l k := by
  induction l with
  | nil => rfl
  | cons p t ih =>
    rw [lookupLast_cons, alGet_cons]
    rw [alKeys, List.map_cons, List.nodup_cons] at hn
    by_cases hp : (p.1 == k) = true
    · have hk : p.1 = k := by simpa using hp
      have hhas : alHas t k = false := by
        cases hht : alHas t k with
        | false => rfl
        | true =>
          exact absurd (hk ▸ (alHas_iff_mem_keys t k).mp hht) hn.1
      rw [lookupLast_eq_none_of_not_has t k hhas]
      simp [hp]
    · simp only [Bool.not_eq_true] at hp
      rw [ih hn.2]
      simp [hp]

theorem allSome_map_some {α : Type} (l : List α) : allSome (l.map some) = some l := by
  induction l with
  | nil => rfl
  | cons a t ih => simp [allSome, ih]

/-! ## Structure of the main reconciliation loop -/

/-- The record appended to `changes['updates']` for one `new_dict` entry. -/
def entryFor (existingDict : List (Option String × Record))
    (p : Option String × Record) : Record :=
  match alGet existingDict p.1 with
  | none => p.2
  | some ex => (mergeItem ex p.2).1

/-- Whether one `new_dict` entry sets `changes['detected']`. -/
def entryChanged (existingDict : List (Option String × Record))
    (p : Option String × Record) : Bool :=
  match alGet existingDict p.1 with
  | none => true
  | some ex => (mergeItem ex p.2).2

theorem processNews_updatesTail (ed nd : List (Option String × Record)) :
    (processNews ed nd).updatesTail = nd.map (entryFor ed) := by
  induction nd with
  | nil => rfl
  | cons p t ih =>
    cases p with
    | mk t0 item =>
      rw [List.map_cons]
      cases h : alGet ed t0 with
      | none =>
        have he : entryFor ed (t0, item) = item := by simp [entryFor, h]
        simp only [processNews, h, he]
        rw [ih]
      | some ex =>
        have he : entryFor ed (t0, item) = (mergeItem ex item).1 := by
          simp [entryFor, h]
        simp only [processNews, h, he]
        rw [ih]

theorem processNews_added (ed nd : List (Option String × Record)) :
    (processNews ed nd).added
      = (nd.filter (fun p => (alGet ed p.1).isNone)).map Prod.fst := by
  induction nd with
  | nil => rfl
  | cons p t ih =>
    cases p with
    | mk t0 item =>
      unfold processNews
      cases h : alGet ed t0 with
      | none => simp only [h, List.filter_cons, Option.isNone_none]; simpa using ih
      | some ex => simp only [h, List.filter_cons, Option.isNone_some]; simpa using ih

/-- Whether one `new_dict` entry gets its title appended to
`changes['modified']`. -/
def modFlag (ed : List (Option String × Record))
    (p : Option String × Record) : Bool :=
  match alGet ed p.1 with
  | none => false
  | some ex => (mergeItem ex p.2).2

theorem processNews_modified (ed nd : List (Option String × Record)) :
    (processNews ed nd).modified = (nd.filter (modFlag ed)).map Prod.fst := by
  induction nd with
  | nil => rfl
  | cons p t ih =>
    cases p with
    | mk t0 item =>
      rw [List.filter_cons]
      cases h : alGet ed t0 with
      | none =>
        have he : modFlag ed (t0, item) = false := by simp [modFlag, h]
        simp only [processNews, h, he, Bool.false_eq_true, if_false]
        exact ih
      | some ex =>
        have he : modFlag ed (t0, item) = (mergeItem ex item).2 := by
          simp [modFlag, h]
        simp only [processNews, h, he]
        cases hm : (mergeItem ex item).2 with
        | false => simp only [hm, Bool.false_eq_true, if_false]; exact ih
        | true => simp only [hm, if_true, List.map_cons]; rw [ih]

theorem processNews_changed (ed nd : List (Option String × Record)) :
    (processNews ed nd).changed = nd.any (entryChanged ed) := by
  induction nd with
  | nil => rfl
  | cons p t ih =>
    cases p with
    | mk t0 item =>
      rw [List.any_cons]
      cases h : alGet ed t0 with
      | none =>
        have he : entryChanged ed (t0, item) = true := by simp [entryChanged, h]
        simp only [processNews, h, he]
        simp
      | some ex =>
        have he : entryChanged ed (t0, item) = (mergeItem ex item).2 := by
          simp [entryChanged, h]
        simp only [processNews, h, he]
        rw [ih]

/-! ## Structure of the title dicts -/

theorem buildTitleDict_binding_title (items : List Record) (t : Option String)
    (r : Record) (h : (t, r) ∈ buildTitleDict items) : titleOf r = t := by
  have hm := mem_alOf _ _ h
  rcases List.mem_map.mp hm with ⟨it, _, he⟩
  have h1 : titleOf it = t := congrArg Prod.fst he
  have h2 : it = r := congrArg Prod.snd he
  rw [← h2, h1]

theorem buildTitleDict_mem_value (items : List Record) (t : Option String)
    (r : Record) (h : (t, r) ∈ buildTitleDict items) : r ∈ items := by
  have hm := mem_alOf _ _ h
  rcases List.mem_map.mp hm with ⟨it, hit, he⟩
  have h2 : it = r := congrArg Prod.snd he
  exact h2 ▸ hit

theorem buildTitleDict_get_title (items : List Record) (t : Option String)
    (r : Record) (h : alGet (buildTitleDict items) t = some r) : titleOf r = t :=
  buildTitleDict_binding_title items t r (alGet_mem _ _ _ h)

theorem buildTitleDict_get_value (items : List Record) (t : Option String)
    (r : Record) (h : alGet (buildTitleDict items) t = some r) : r ∈ items :=
  buildTitleDict_mem_value items t r (alGet_mem _ _ _ h)

/-! ## Keys of `to_dict` are unique -/

theorem keepAttr_key (k : String) (v : Option String) (p : String × String)
    (h : keepAttr (k, v) = some p) : p.1 = k := by
  cases v with
  | none => cases h
  | some s =>
    simp only [keepAttr] at h
    by_cases hs : s = ""
    · rw [if_pos hs] at h; cases h
    · rw [if_neg hs] at h
      cases h
      rfl

theorem mem_keys_filterMap_keepAttr (l : List (String × Option String)) (a : String)
    (h : a ∈ alKeys (l.filterMap keepAttr)) : a ∈ l.map Prod.fst := by
  simp only [alKeys, List.mem_map] at h
  rcases h with ⟨p, hp, he⟩
  rcases List.mem_filterMap.mp hp with ⟨q, hq, hqe⟩
  have : p.1 = q.1 := by
    cases q with
    | mk qk qv => exact keepAttr_key qk qv p hqe
  rw [List.mem_map]
  exact ⟨q, hq, by rw [← this, he]⟩

theorem filterMap_keepAttr_keys_nodup (l : List (String × Option String))
    (hn : (l.map Prod.fst).Nodup) : (alKeys (l.filterMap keepAttr)).Nodup := by
  induction l with
  | nil => simp [alKeys]
  | cons q t ih =>
    rw [List.map_cons, List.nodup_cons] at hn
    rw [List.filterMap_cons]
    cases hq : keepAttr q with
    | none => exact ih hn.2
    | some p =>
      rw [alKeys, List.map_cons, List.nodup_cons]
      refine ⟨?_, ih hn.2⟩
      intro hmem
      have hp1 : p.1 = q.1 := by
        cases q with
        | mk qk qv => exact keepAttr_key qk qv p hq
      exact hn.1 (hp1 ▸ mem_keys_filterMap_keepAttr t p.1 hmem)

theorem to_dict_keys_nodup (c : ContactItem) : (alKeys c.to_dict).Nodup := by
  apply filterMap_keepAttr_keys_nodup
  show ((ContactItem.attrs c).map Prod.fst).Nodup
  unfold ContactItem.attrs
  simp only [List.map_cons, List.map_nil]
  decide

theorem alGet_map_pair {κ α β : Type} [BEq κ] [LawfulBEq κ]
    (l : List (κ × α)) (f : κ × α → β) (k : κ) :
    alGet (l.map (fun p => (p.1, f p))) k
      = (l.find? (fun p => p.1 == k)).map (fun p => f p) := by
  unfold alGet
  rw [List.find?_map]
  have hc : ((fun p : κ × β => p.1 == k) ∘ (fun p : κ × α => (p.1, f p)))
      = (fun p : κ × α => p.1 == k) := rfl
  rw [hc, Option.map_map]
  rfl

theorem entryFor_title (ed : List (Option String × Record))
    (hed : ∀ q ∈ ed, titleOf q.2 = q.1)
    (q : Option String × Record) (hqt : titleOf q.2 = q.1)
    (hqn : (alKeys q.2).Nodup) : titleOf (entryFor ed q) = q.1 := by
  cases h : alGet ed q.1 with
  | none => simp [entryFor, h, hqt]
  | some ex =>
    have he : entryFor ed q = (mergeItem ex q.2).1 := by simp [entryFor, h]
    rw [he]
    unfold titleOf
    rw [alGet_mergeItem, lookupLast_eq_alGet_of_nodup _ _ hqn]
    have hq2 : alGet q.2 "title" = q.1 := hqt
    rw [hq2]
    cases hq1 : q.1 with
    | some s => rfl
    | none =>
      have hmem := alGet_mem ed q.1 ex h
      have := hed (q.1, ex) hmem
      simp only [titleOf] at this
      rw [hq1] at this
      simpa using this

theorem secondRun_get (ed : List (Option String × Record)) (items : List Record)
    (hed : ∀ q ∈ ed, titleOf q.2 = q.1)
    (hitems : ∀ r ∈ items, (alKeys r).Nodup)
    (p : Option String × Record) (hp : p ∈ buildTitleDict items) :
    alGet (buildTitleDict ((buildTitleDict items).map (entryFor ed))) p.1
      = some (entryFor ed p) := by
  set nd := buildTitleDict items with hnd
  have hnd_title : ∀ q ∈ nd, titleOf q.2 = q.1 := by
    intro q hq
    cases q with
    | mk a b => exact buildTitleDict_binding_title items a b hq
  have hnd_vals : ∀ q ∈ nd, (alKeys q.2).Nodup := by
    intro q hq
    cases q with
    | mk a b => exact hitems b (buildTitleDict_mem_value items a b hq)
  have hF4 : ∀ q ∈ nd, titleOf (entryFor ed q) = q.1 := by
    intro q hq
    exact entryFor_title ed hed q (hnd_title q hq) (hnd_vals q hq)
  have hpairs : (nd.map (entryFor ed)).map (fun r => (titleOf r, r))
      = nd.map (fun q => (q.1, entryFor ed q)) := by
    rw [List.map_map]
    apply List.map_congr_left
    intro q hq
    show (titleOf (entryFor ed q), entryFor ed q) = (q.1, entryFor ed q)
    rw [hF4 q hq]
  have hkeys : alKeys (nd.map (fun q => (q.1, entryFor ed q))) = alKeys nd := by
    unfold alKeys
    rw [List.map_map]
    rfl
  have hnodup : (alKeys nd).Nodup := alKeys_alOf_nodup _
  have hnodup2 : (alKeys (nd.map (fun q => (q.1, entryFor ed q)))).Nodup := by
    rw [hkeys]; exact hnodup
  show alGet (alOf ((nd.map (entryFor ed)).map (fun r => (titleOf r, r)))) p.1
      = some (entryFor ed p)
  rw [alGet_alOf, hpairs, lookupLast_eq_alGet_of_nodup _ _ hnodup2, alGet_map_pair]
  have hgetnd : alGet nd p.1 = some p.2 := alGet_of_mem_nodup nd p.1 p.2 hnodup hp
  rw [find?_key_eq nd p.1 p.2 hgetnd]
  rfl

theorem entryChanged_false_second (ex2 : Record) (item : Record)
    (h : ∀ kv ∈ item, alGet ex2 kv.1 = some kv.2) :
    (mergeItem ex2 item).2 = false := by
  rw [mergeItem_eq]
  simp only
  rw [List.any_eq_false]
  intro kv hkv
  simp [chgField, h kv hkv]

/-- C2: re-running `update_contacts` with the same parsed records against the
store produced by the first run detects no changes (empty added, modified and
removed lists, `detected = false`) and performs no write: the store after the
second run is exactly the store after the first run. -/
theorem C2_update_contacts_idempotent (contacts : List ContactItem)
    (store : Option (List (Option Record))) (c1 : Changes)
    (h1 : update_contacts contacts store = some c1) :
    ∃ c2, update_contacts contacts (storeAfter store c1) = some c2
      ∧ c2.detected = false ∧ c2.added = [] ∧ c2.modified = []
      ∧ c2.removed = []
      ∧ storeAfter (storeAfter store c1) c2 = storeAfter store c1 := by
  have h1' : (allSome (match store with | some l => l.drop 1 | none => [])).map
      (update_contacts_core (contacts.map ContactItem.to_dict)) = some c1 := h1
  rcases Option.map_eq_some'.mp h1' with ⟨exItems, hex, hc1⟩
  set ndl := contacts.map ContactItem.to_dict with hndl
  set nd := buildTitleDict ndl with hnddef
  set ed := buildTitleDict exItems with heddef
  have hitems : ∀ r ∈ ndl, (alKeys r).Nodup := by
    intro r hr
    rcases List.mem_map.mp hr with ⟨c, _, hc⟩
    rw [← hc]
    exact to_dict_keys_nodup c
  have hed_prop : ∀ q ∈ ed, titleOf q.2 = q.1 := by
    intro q hq
    cases q with
    | mk a b => exact buildTitleDict_binding_title exItems a b hq
  have hvals : ∀ p ∈ nd, (alKeys p.2).Nodup := by
    intro p hp
    cases p with
    | mk a b => exact hitems b (buildTitleDict_mem_value ndl a b hp)
  have hcd : c1.detected
      = ((processNews ed nd).changed || !(removedTitles ed nd).isEmpty) := by
    rw [← hc1]; rfl
  cases hdt : ((processNews ed nd).changed || !(removedTitles ed nd).isEmpty) with
  | false =>
    have hchg : (processNews ed nd).changed = false :=
      (Bool.or_eq_false_iff.mp hdt).1
    have hremE : (!(removedTitles ed nd).isEmpty) = false :=
      (Bool.or_eq_false_iff.mp hdt).2
    have hrem : removedTitles ed nd = [] := by
      rw [Bool.not_eq_false'] at hremE
      exact List.isEmpty_iff.mp hremE
    have hall : ∀ q ∈ nd, ¬ entryChanged ed q = true := by
      have hany := hchg
      rw [processNews_changed, List.any_eq_false] at hany
      exact hany
    have hdetc1 : c1.detected = false := by rw [hcd, hdt]
    have hadded : c1.added = [] := by
      have hv : c1.added = (processNews ed nd).added := by rw [← hc1]; rfl
      have hfil : nd.filter (fun p => (alGet ed p.1).isNone) = [] := by
        rw [List.filter_eq_nil_iff]
        intro p hp hco
        have hnone : alGet ed p.1 = none := by simpa using hco
        exact hall p hp (by simp [entryChanged, hnone])
      rw [hv, processNews_added, hfil]
      rfl
    have hmod : c1.modified = [] := by
      have hv : c1.modified = (processNews ed nd).modified := by rw [← hc1]; rfl
      have hfil : nd.filter (modFlag ed) = [] := by
        rw [List.filter_eq_nil_iff]
        intro p hp hco
        cases halg : alGet ed p.1 with
        | none => simp [modFlag, halg] at hco
        | some ex =>
          have hmf : (mergeItem ex p.2).2 = true := by
            simpa [modFlag, halg] using hco
          exact hall p hp (by simp [entryChanged, halg, hmf])
      rw [hv, processNews_modified, hfil]
      rfl
    have hremc1 : c1.removed = [] := by
      have hv : c1.removed = removedTitles ed nd := by rw [← hc1]; rfl
      rw [hv, hrem]
    have hsa : storeAfter store c1 = store := by simp [storeAfter, hdetc1]
    refine ⟨c1, ?_, hdetc1, hadded, hmod, hremc1, ?_⟩
    · rw [hsa]; exact h1
    · rw [hsa, hsa]
  | true =>
    have hdetc1 : c1.detected = true := by rw [hcd, hdt]
    set tail1 := (processNews ed nd).updatesTail with htail1
    have hupd : c1.updates = none :: tail1.map some := by rw [← hc1]; rfl
    have hsa : storeAfter store c1 = some c1.updates := by
      simp [storeAfter, hdetc1]
    have hrun2 : update_contacts contacts (some (none :: tail1.map some))
        = some (update_contacts_core ndl tail1) := by
      show (allSome ((none :: tail1.map some).drop 1)).map
          (update_contacts_core ndl) = some (update_contacts_core ndl tail1)
      rw [show ((none :: tail1.map some : List (Option Record)).drop 1)
            = tail1.map some from rfl,
        allSome_map_some]
      rfl
    set c2 := update_contacts_core ndl tail1 with hc2def
    have htail1eq : tail1 = nd.map (entryFor ed) := processNews_updatesTail ed nd
    set ed2 := buildTitleDict tail1 with hed2
    have hget2 : ∀ p ∈ nd, alGet ed2 p.1 = some (entryFor ed p) := by
      intro p hp
      rw [hed2, htail1eq, hnddef]
      exact secondRun_get ed ndl hed_prop hitems p hp
    have hex2get : ∀ p ∈ nd, ∀ kv ∈ p.2, alGet (entryFor ed p) kv.1 = some kv.2 := by
      intro p hp kv hkv
      have hv : alGet p.2 kv.1 = some kv.2 :=
        alGet_of_mem_nodup _ _ _ (hvals p hp) hkv
      cases halg : alGet ed p.1 with
      | none => simpa [entryFor, halg] using hv
      | some ex =>
        have he : entryFor ed p = (mergeItem ex p.2).1 := by
          simp [entryFor, halg]
        rw [he, alGet_mergeItem, lookupLast_eq_alGet_of_nodup _ _ (hvals p hp), hv]
        rfl
    have hnochg : ∀ p ∈ nd, entryChanged ed2 p = false := by
      intro p hp
      have hg := hget2 p hp
      have hmf : (mergeItem (entryFor ed p) p.2).2 = false :=
        entryChanged_false_second _ _ (hex2get p hp)
      simp [entryChanged, hg, hmf]
    have hprc2 : (processNews ed2 nd).changed = false := by
      rw [processNews_changed, List.any_eq_false]
      intro p hp
      simp [hnochg p hp]
    have haddc2 : (processNews ed2 nd).added = [] := by
      rw [processNews_added]
      have hfil : nd.filter (fun p => (alGet ed2 p.1).isNone) = [] := by
        rw [List.filter_eq_nil_iff]
        intro p hp hco
        rw [hget2 p hp] at hco
        simp at hco
      rw [hfil]
      rfl
    have hmodc2 : (processNews ed2 nd).modified = [] := by
      rw [processNews_modified]
      have hfil : nd.filter (modFlag ed2) = [] := by
        rw [List.filter_eq_nil_iff]
        intro p hp hco
        have hg := hget2 p hp
        have hm : modFlag ed2 p = (mergeItem (entryFor ed p) p.2).2 := by
          simp [modFlag, hg]
        rw [hm, entryChanged_false_second _ _ (hex2get p hp)] at hco
        cases hco
      rw [hfil]
      rfl
    have hremc2 : removedTitles ed2 nd = [] := by
      unfold removedTitles
      rw [List.filter_eq_nil_iff]
      intro t ht hco
      have h1m : t ∈ (tail1.map (fun r => (titleOf r, r))).map Prod.fst :=
        (mem_keys_alOf (tail1.map (fun r => (titleOf r, r))) t).mp ht
      rw [List.map_map] at h1m
      have h1m' : t ∈ tail1.map titleOf := h1m
      rcases List.mem_map.mp h1m' with ⟨r, hr, hrt⟩
      rw [htail1eq] at hr
      rcases List.mem_map.mp hr with ⟨q, hq, hqr⟩
      have hqt : titleOf q.2 = q.1 := by
        cases q with
        | mk a b => exact buildTitleDict_binding_title ndl a b hq
      have hT : titleOf r = q.1 := by
        rw [← hqr]
        exact entryFor_title ed hed_prop q hqt (hvals q hq)
      have htq : t = q.1 := by rw [← hrt, hT]
      have hhas : alHas nd t = true := by
        rw [alHas_iff_mem_keys, htq]
        exact List.mem_map.mpr ⟨q, hq, rfl⟩
      simp [hhas] at hco
    have hc2det : c2.detected = false := by
      show ((processNews ed2 nd).changed || !(removedTitles ed2 nd).isEmpty) = false
      rw [hprc2, hremc2]
      rfl
    have hc2add : c2.added = [] := haddc2
    have hc2mod : c2.modified = [] := hmodc2
    have hc2rem : c2.removed = [] := hremc2
    refine ⟨c2, ?_, hc2det, hc2add, hc2mod, hc2rem, ?_⟩
    · rw [hsa, hupd]; exact hrun2
    · rw [hsa]; simp [storeAfter, hc2det]

/-! ## C1: merge preserves store-only fields -/

theorem keepAttr_none_not_has (l : List (String × Option String)) (k : String)
    (v0 : Option String) (hn : (l.map Prod.fst).Nodup) (hmem : (k, v0) ∈ l)
    (hk : keepAttr (k, v0) = none) : alHas (l.filterMap keepAttr) k = false := by
  cases hha : alHas (l.filterMap keepAttr) k with
  | false => rfl
  | true =>
    exfalso
    have hkk := (alHas_iff_mem_keys _ _).mp hha
    simp only [alKeys, List.mem_map] at hkk
    rcases hkk with ⟨p, hp, hpk⟩
    rcases List.mem_filterMap.mp hp with ⟨q, hq, hqe⟩
    have hq1 : p.1 = q.1 := by
      cases q with
      | mk a b => exact keepAttr_key a b p hqe
    have hqk : q.1 = k := by rw [← hq1, hpk]
    have hfst : Prod.fst q = Prod.fst ((k, v0) : String × Option String) := hqk
    have hEq : q = (k, v0) := List.inj_on_of_nodup_map hn hq hmem hfst
    rw [hEq, hk] at hqe
    cases hqe

/-- C1: in the contacts merge, every field of the stored record whose name is
absent from the new record keeps its stored value in the merged record;
`ContactItem.to_dict` omits `None` and empty-string attributes, so an absent
or empty field of a newly parsed contact never overwrites a stored value. -/
theorem C1_merge_preserves_stored_fields :
    (∀ (ex newRec : Record) (k : String), alHas newRec k = false →
      alGet (mergeItem ex newRec).1 k = alGet ex k)
    ∧ (∀ (c : ContactItem) (k : String) (v0 : Option String),
        (k, v0) ∈ c.attrs → (v0 = none ∨ v0 = some "") →
        alHas c.to_dict k = false)
    ∧ (∀ (ex : Record) (c : ContactItem) (k : String) (v0 : Option String),
        (k, v0) ∈ c.attrs → (v0 = none ∨ v0 = some "") →
        alGet (mergeItem ex c.to_dict).1 k = alGet ex k) := by
  have part1 : ∀ (ex newRec : Record) (k : String), alHas newRec k = false →
      alGet (mergeItem ex newRec).1 k = alGet ex k := by
    intro ex n k h
    rw [alGet_mergeItem, lookupLast_eq_none_of_not_has n k h]
    rfl
  have hattr : ∀ c : ContactItem, (c.attrs.map Prod.fst).Nodup := by
    intro c
    have he : c.attrs.map Prod.fst
        = ["title", "subtitle", "address", "coordinates", "phone", "phone2",
           "mail", "web", "facebook", "fbId", "fbUrl", "maintenance"] := rfl
    rw [he]
    decide
  have part2 : ∀ (c : ContactItem) (k : String) (v0 : Option String),
      (k, v0) ∈ c.attrs → (v0 = none ∨ v0 = some "") →
      alHas c.to_dict k = false := by
    intro c k v0 hmem hv
    apply keepAttr_none_not_has c.attrs k v0 (hattr c) hmem
    rcases hv with h | h <;> subst h <;> simp [keepAttr]
  exact ⟨part1, part2, fun ex c k v0 hmem hv => part1 ex c.to_dict k (part2 c k v0 hmem hv)⟩

theorem C1_merge_preserves_stored_fields_witness :
    alGet (mergeItem [("title", "A"), ("phone", "111"), ("note", "manual")]
        [("title", "A")]).1 "note" = some "manual"
    ∧ alHas (ContactItem.to_dict
        ⟨some "A", none, none, none, some "", none, none, none, none, none,
         none, none⟩) "phone" = false
    ∧ alGet (mergeItem [("title", "A"), ("phone", "111"), ("note", "manual")]
        (ContactItem.to_dict
          ⟨some "A", none, none, none, some "", none, none, none, none, none,
           none, none⟩)).1 "phone" = some "111" := by
  refine ⟨?_, ?_, ?_⟩
  · rw [C1_merge_preserves_stored_fields.1 _ _ "note" (by decide)]
    decide
  · exact C1_merge_preserves_stored_fields.2.1 _ "phone" (some "")
      (by decide) (Or.inr rfl)
  · rw [C1_merge_preserves_stored_fields.2.2 _ _ "phone" (some "")
      (by decide) (Or.inr rfl)]
    decide

/-! ## C4: which field differences mark a key as modified -/

/-- The stored items that `update_contacts` indexes: the tail of the stored
collection after the placeholder, `none` when some entry is not a dict. -/
def storedItems (store : Option (List (Option Record))) : Option (List Record) :=
  allSome (match store with | some l => l.drop 1 | none => [])

theorem update_contacts_eq_core (contacts : List ContactItem)
    (store : Option (List (Option Record))) :
    update_contacts contacts store
      = (storedItems store).map
          (update_contacts_core (contacts.map ContactItem.to_dict)) := rfl

/-- C4 counterexample: stored record `{title: A, phone: 1}`, new record
`{title: A}` — the field `phone` is present in the stored record and absent
from the new one, yet `update_contacts` reports no modification at all
(`detected = false`, `modified = []`), because the per-field comparison only
iterates over the fields of the new record. The claim as stated requires
`modified = [A]` and `detected = true` here. -/
theorem C4_counterexample :
    update_contacts
      [⟨some "A", none, none, none, none, none, none, none, none, none, none,
        none⟩]
      (some [none, some [("title", "A"), ("phone", "1")]])
    = some ⟨false, [none, some [("title", "A"), ("phone", "1")]], [], [], []⟩ := by
  decide

/-- C4, amended: for a key present in both dicts, `update_contacts` marks the
key as modified (and sets `detected`) exactly when at least one field of the
NEW record is absent from the stored record or differs from it in value; a
field present only in the stored record does not count as a change. -/
theorem C4_modified_iff_new_field_differs (contacts : List ContactItem)
    (store : Option (List (Option Record))) (exItems : List Record)
    (c : Changes) (t : Option String) (item ex : Record)
    (hst : storedItems store = some exItems)
    (hrun : update_contacts contacts store = some c)
    (hitem : alGet (buildTitleDict (contacts.map ContactItem.to_dict)) t
      = some item)
    (hex : alGet (buildTitleDict exItems) t = some ex) :
    (t ∈ c.modified ↔ item.any (chgField ex) = true)
    ∧ (t ∈ c.modified → c.detected = true) := by
  set ndl := contacts.map ContactItem.to_dict with hndl
  set nd := buildTitleDict ndl with hnddef
  set ed := buildTitleDict exItems with heddef
  have hc : c = update_contacts_core ndl exItems := by
    rw [update_contacts_eq_core, hst] at hrun
    exact (Option.some_inj.mp hrun).symm
  have hmodified : c.modified = (nd.filter (modFlag ed)).map Prod.fst := by
    rw [hc]
    exact processNews_modified ed nd
  have hnodup : (alKeys nd).Nodup := alKeys_alOf_nodup _
  have hflag : modFlag ed (t, item) = item.any (chgField ex) := by
    have h1 : modFlag ed (t, item) = (mergeItem ex item).2 := by
      simp [modFlag, hex]
    rw [h1, mergeItem_eq]
  have hmem : t ∈ c.modified ↔ item.any (chgField ex) = true := by
    rw [hmodified]
    constructor
    · intro hm
      rcases List.mem_map.mp hm with ⟨p, hp, hpt⟩
      have hpnd : p ∈ nd := List.mem_of_mem_filter hp
      have hpl : modFlag ed p = true := List.of_mem_filter hp
      have hget : alGet nd p.1 = some p.2 :=
        alGet_of_mem_nodup nd p.1 p.2 hnodup hpnd
      rw [hpt] at hget
      have hpv : p.2 = item := by
        rw [hget] at hitem
        exact Option.some_inj.mp hitem
      have : modFlag ed (t, item) = true := by
        have hpe : p = (t, item) := by
          cases p with
          | mk a b =>
            simp only at hpt hpv
            rw [hpt, hpv]
        rw [← hpe]
        exact hpl
      rw [← hflag]
      exact this
    · intro hany
      have hbind : (t, item) ∈ nd := alGet_mem nd t item hitem
      have : (t, item) ∈ nd.filter (modFlag ed) :=
        List.mem_filter.mpr ⟨hbind, by rw [hflag]; exact hany⟩
      exact List.mem_map.mpr ⟨(t, item), this, rfl⟩
  refine ⟨hmem, ?_⟩
  intro hm
  have hany := hmem.mp hm
  have hdet : c.detected
      = ((processNews ed nd).changed || !(removedTitles ed nd).isEmpty) := by
    rw [hc]; rfl
  have hchg : (processNews ed nd).changed = true := by
    rw [processNews_changed, List.any_eq_true]
    refine ⟨(t, item), alGet_mem nd t item hitem, ?_⟩
    have : entryChanged ed (t, item) = (mergeItem ex item).2 := by
      simp [entryChanged, hex]
    rw [this, mergeItem_eq]
    exact hany
  rw [hdet, hchg]
  rfl

theorem C4_modified_iff_new_field_differs_witness :
    ((some "A") ∈ (Changes.mk true
        [none, some [("title", "A"), ("phone", "2")]] [] [some "A"] []).modified
      ↔ ([("title", "A"), ("phone", "2")] : Record).any
          (chgField [("title", "A"), ("phone", "1")]) = true)
    ∧ ((some "A") ∈ (Changes.mk true
        [none, some [("title", "A"), ("phone", "2")]] [] [some "A"] []).modified
      → (Changes.mk true
          [none, some [("title", "A"), ("phone", "2")]] [] [some "A"] []).detected
        = true) :=
  C4_modified_iff_new_field_differs
    [⟨some "A", none, none, none, some "2", none, none, none, none, none, none,
      none⟩]
    (some [none, some [("title", "A"), ("phone", "1")]])
    [[("title", "A"), ("phone", "1")]]
    (Changes.mk true [none, some [("title", "A"), ("phone", "2")]] [] [some "A"] [])
    (some "A") [("title", "A"), ("phone", "2")] [("title", "A"), ("phone", "1")]
    (by decide) (by decide) (by decide) (by decide)

/-! ## C6: duplicate keys collapse last-wins at the first position -/

theorem list_find?_congr {α : Type} (l : List α) (p q : α → Bool)
    (h : ∀ a ∈ l, p a = q a) : l.find? p = l.find? q := by
  induction l with
  | nil => rfl
  | cons a t ih =>
    have ha := h a (List.mem_cons_self a t)
    by_cases hp : p a = true
    · rw [List.find?_cons_of_pos _ hp, List.find?_cons_of_pos _ (ha ▸ hp)]
    · simp only [Bool.not_eq_true] at hp
      rw [List.find?_cons_of_neg _ (by simp [hp]),
        List.find?_cons_of_neg _ (by simp [← ha, hp])]
      exact ih (fun a ha => h a (List.mem_cons_of_mem _ ha))

theorem list_findIdx_map {α β : Type} (f : α → β) (l : List α) (p : β → Bool) :
    (l.map f).findIdx p = l.findIdx (fun a => p (f a)) := by
  induction l with
  | nil => rfl
  | cons a t ih =>
    rw [List.map_cons, List.findIdx_cons, List.findIdx_cons]
    cases hp : p (f a) with
    | false => simp [hp, ih]
    | true => simp [hp]

theorem dedupFirst_nodup {κ : Type} [BEq κ] [LawfulBEq κ] (l : List κ) :
    (dedupFirst l).Nodup := by
  unfold dedupFirst
  have main : ∀ acc : List κ, acc.Nodup →
      (l.foldl (fun acc k => if acc.contains k then acc else acc ++ [k]) acc).Nodup := by
    induction l with
    | nil => exact fun acc h => h
    | cons a t ih =>
      intro acc hacc
      rw [List.foldl_cons]
      apply ih
      by_cases hc : acc.contains a = true
      · rw [if_pos hc]
        exact hacc
      · simp only [Bool.not_eq_true] at hc
        simp only [hc, Bool.false_eq_true, if_false]
        rw [List.nodup_append]
        refine ⟨hacc, List.nodup_singleton _, ?_⟩
        intro x hx hxa
        simp only [List.mem_singleton] at hxa
        subst hxa
        have : acc.contains x = true := by
          simp [List.contains, List.elem_iff, hx]
        rw [this] at hc
        cases hc
  exact main [] List.nodup_nil

theorem lookupLast_titlePairs (l : List Record) (k : Option String) :
    lookupLast (l.map (fun it => (titleOf it, it))) k
      = l.reverse.find? (fun r => titleOf r == k) := by
  unfold lookupLast
  rw [← List.map_reverse, List.find?_map]
  cases hf : l.reverse.find?
      ((fun p : Option String × Record => p.1 == k) ∘ fun it => (titleOf it, it)) with
  | none =>
    have hf' : l.reverse.find? (fun r => titleOf r == k) = none := hf
    rw [hf']
    rfl
  | some r =>
    have hf' : l.reverse.find? (fun r => titleOf r == k) = some r := hf
    rw [hf']
    rfl

theorem countP_eq_one_of_nodup_mem {K : Type} [BEq K] [LawfulBEq K]
    (l : List K) (a : K) (hn : l.Nodup) (hm : a ∈ l) :
    l.countP (fun x => x == a) = 1 := by
  induction l with
  | nil => simp at hm
  | cons b t ih =>
    rw [List.countP_cons]
    rw [List.nodup_cons] at hn
    rcases List.mem_cons.mp hm with h | h
    · subst h
      have hz : t.countP (fun x => x == a) = 0 := by
        rw [List.countP_eq_zero]
        intro x hx hxa
        have : x = a := by simpa using hxa
        exact hn.1 (this ▸ hx)
      simp [hz]
    · have hba : (b == a) = false := by
        have : b ≠ a := fun hc => hn.1 (hc ▸ h)
        simpa [beq_eq_false_iff_ne] using this
      simp only [hba]
      rw [ih hn.2 h]
      simp

/-- C6: when several parsed records share one title, the reconciled output of
`update_contacts` (run here against an empty store) keeps exactly one entry
for that title, its record is the last record with that title in fetch order,
and the output order is the first-seen order of the distinct titles, so the
surviving entry sits at the position where the title first occurred. -/
theorem C6_duplicate_key_last_wins (contacts : List ContactItem) (t : String)
    (c : Changes)
    (hdup : 2 ≤ ((contacts.map ContactItem.to_dict).map titleOf).count (some t))
    (hrun : update_contacts contacts none = some c) :
    ∃ items, allSome (c.updates.drop 1) = some items
      ∧ items.map titleOf
          = dedupFirst ((contacts.map ContactItem.to_dict).map titleOf)
      ∧ items.countP (fun r => titleOf r == some t) = 1
      ∧ items.find? (fun r => titleOf r == some t)
          = (contacts.map ContactItem.to_dict).reverse.find?
              (fun r => titleOf r == some t)
      ∧ items.findIdx (fun r => titleOf r == some t)
          = (dedupFirst ((contacts.map ContactItem.to_dict).map titleOf)).findIdx
              (fun x => x == some t) := by
  set ndl := contacts.map ContactItem.to_dict with hndl
  set nd := buildTitleDict ndl with hnddef
  have hc : c = update_contacts_core ndl [] := by
    have h0 : update_contacts contacts none
        = some (update_contacts_core ndl []) := rfl
    rw [h0] at hrun
    exact (Option.some_inj.mp hrun).symm
  have hnd_title : ∀ p ∈ nd, titleOf p.2 = p.1 := by
    intro p hp
    cases p with
    | mk a b => exact buildTitleDict_binding_title ndl a b hp
  have htail : (processNews (buildTitleDict []) nd).updatesTail
      = nd.map Prod.snd := by
    rw [processNews_updatesTail]
    apply List.map_congr_left
    intro p hp
    have hbe : buildTitleDict ([] : List Record) = [] := rfl
    simp [entryFor, hbe, alGet_nil]
  have hupd : c.updates = none :: (nd.map Prod.snd).map some := by
    rw [hc]
    show (none : Option Record)
        :: ((processNews (buildTitleDict []) nd).updatesTail).map some
      = none :: (nd.map Prod.snd).map some
    rw [htail]
  have htitles : (nd.map Prod.snd).map titleOf = alKeys nd := by
    rw [List.map_map]
    apply List.map_congr_left
    intro p hp
    exact hnd_title p hp
  have hkeys : alKeys nd = dedupFirst (ndl.map titleOf) := by
    show alKeys (alOf (ndl.map fun it => (titleOf it, it)))
        = dedupFirst (ndl.map titleOf)
    rw [alKeys_alOf, List.map_map]
    rfl
  have hnodup : (alKeys nd).Nodup := alKeys_alOf_nodup _
  have hmem_t : some t ∈ alKeys nd := by
    have h0 : 0 < (ndl.map titleOf).count (some t) := by omega
    have hmem : some t ∈ ndl.map titleOf := List.count_pos_iff.mp h0
    have hmem2 : some t ∈ (ndl.map fun it => (titleOf it, it)).map Prod.fst := by
      rw [List.map_map]
      exact hmem
    exact (mem_keys_alOf _ _).mpr hmem2
  have hhas : alHas nd (some t) = true := (alHas_iff_mem_keys _ _).mpr hmem_t
  have hsome : (alGet nd (some t)).isSome = true := by
    rw [alGet_isSome_iff, hhas]
  rcases Option.isSome_iff_exists.mp hsome with ⟨item0, hget⟩
  refine ⟨nd.map Prod.snd, ?_, ?_, ?_, ?_, ?_⟩
  · rw [hupd]
    show allSome ((nd.map Prod.snd).map some) = some (nd.map Prod.snd)
    exact allSome_map_some _
  · rw [htitles, hkeys]
  · have hcp : (alKeys nd).countP (fun x => x == some t)
        = nd.countP (fun p => p.1 == some t) :=
      List.countP_map _ _ _
    have hone : (alKeys nd).countP (fun x => x == some t) = 1 :=
      countP_eq_one_of_nodup_mem (alKeys nd) (some t) hnodup hmem_t
    have hcongr : ∀ p ∈ nd,
        ((fun r => titleOf r == some t) ∘ Prod.snd) p = true
          ↔ (p.1 == some t) = true := by
      intro p hp
      show (titleOf p.2 == some t) = true ↔ (p.1 == some t) = true
      rw [hnd_title p hp]
    calc (nd.map Prod.snd).countP (fun r => titleOf r == some t)
        = nd.countP ((fun r => titleOf r == some t) ∘ Prod.snd) :=
          List.countP_map _ _ _
      _ = nd.countP (fun p => p.1 == some t) := List.countP_congr hcongr
      _ = (alKeys nd).countP (fun x => x == some t) := hcp.symm
      _ = 1 := hone
  · have hcongr : ∀ p ∈ nd,
        ((fun r => titleOf r == some t) ∘ Prod.snd) p = (p.1 == some t) := by
      intro p hp
      show (titleOf p.2 == some t) = (p.1 == some t)
      rw [hnd_title p hp]
    calc (nd.map Prod.snd).find? (fun r => titleOf r == some t)
        = (nd.find? ((fun r => titleOf r == some t) ∘ Prod.snd)).map Prod.snd :=
          List.find?_map _ _
      _ = (nd.find? (fun p => p.1 == some t)).map Prod.snd := by
          rw [list_find?_congr nd _ _ hcongr]
      _ = some item0 := by
          rw [find?_key_eq nd (some t) item0 hget]
          rfl
      _ = lookupLast (ndl.map fun it => (titleOf it, it)) (some t) := by
          rw [← alGet_alOf]
          exact hget.symm
      _ = ndl.reverse.find? (fun r => titleOf r == some t) :=
          lookupLast_titlePairs ndl (some t)
  · calc (nd.map Prod.snd).findIdx (fun r => titleOf r == some t)
        = ((nd.map Prod.snd).map titleOf).findIdx (fun x => x == some t) :=
          (list_findIdx_map titleOf (nd.map Prod.snd) (fun x => x == some t)).symm
      _ = (dedupFirst (ndl.map titleOf)).findIdx (fun x => x == some t) := by
          rw [htitles, hkeys]

/-- Sample fetch with a duplicated title: A (phone 1), B (phone 2), A (phone 7). -/
def dupContacts : List ContactItem :=
  [⟨some "A", none, none, none, some "1", none, none, none, none, none, none, none⟩,
   ⟨some "B", none, none, none, some "2", none, none, none, none, none, none, none⟩,
   ⟨some "A", none, none, none, some "7", none, none, none, none, none, none, none⟩]

theorem C6_duplicate_key_last_wins_witness :
    ∃ items, allSome ((Changes.mk true
        [none, some [("title", "A"), ("phone", "7")],
         some [("title", "B"), ("phone", "2")]]
        [some "A", some "B"] [] []).updates.drop 1) = some items
      ∧ items.map titleOf
          = dedupFirst ((dupContacts.map ContactItem.to_dict).map titleOf)
      ∧ items.countP (fun r => titleOf r == some "A") = 1
      ∧ items.find? (fun r => titleOf r == some "A")
          = (dupContacts.map ContactItem.to_dict).reverse.find?
              (fun r => titleOf r == some "A")
      ∧ items.findIdx (fun r => titleOf r == some "A")
          = (dedupFirst ((dupContacts.map ContactItem.to_dict).map titleOf)).findIdx
              (fun x => x == some "A") :=
  C6_duplicate_key_last_wins dupContacts "A"
    (Changes.mk true
      [none, some [("title", "A"), ("phone", "7")],
       some [("title", "B"), ("phone", "2")]]
      [some "A", some "B"] [] [])
    (by decide) (by decide)

theorem C2_update_contacts_idempotent_witness :
    ∃ c2, update_contacts
        [⟨some "A", none, none, none, some "1", none, none, none, none, none,
          none, none⟩]
        (storeAfter none (Changes.mk true
          [none, some [("title", "A"), ("phone", "1")]] [some "A"] [] []))
      = some c2
      ∧ c2.detected = false ∧ c2.added = [] ∧ c2.modified = []
      ∧ c2.removed = []
      ∧ storeAfter (storeAfter none (Changes.mk true
            [none, some [("title", "A"), ("phone", "1")]] [some "A"] [] [])) c2
        = storeAfter none (Changes.mk true
            [none, some [("title", "A"), ("phone", "1")]] [some "A"] [] []) :=
  C2_update_contacts_idempotent
    [⟨some "A", none, none, none, some "1", none, none, none, none, none,
      none, none⟩]
    none
    (Changes.mk true [none, some [("title", "A"), ("phone", "1")]]
      [some "A"] [] [])
    (by decide)

/-! ## Field validators

The three validator modules (`contacts-app/validators.py`,
`script-contacts-portal-obcana/validators.py`,
`script-zpravodaj-app/validators.py`) are embedded below. The regular
expressions are implemented as explicit character-level matchers with the
same leftmost-match and greedy/backtracking behaviour; `\w`, `\d` and `\s`
are modelled over their ASCII ranges. Logging arguments are dropped. -/

/-- Python `\s` (ASCII range). -/
def isPyWs (c : Char) : Bool := [' ', '\t', '\n', '\r', '\x0b', '\x0c'].contains c

/-- Python `\d` (ASCII range). -/
def isAsciiDigit (c : Char) : Bool := ('0' ≤ c && c ≤ '9')

/-- `[a-zA-Z]`. -/
def isAsciiAlpha (c : Char) : Bool := ('a' ≤ c && c ≤ 'z') || ('A' ≤ c && c ≤ 'Z')

/-- `[a-zA-Z0-9]`. -/
def isAsciiAlnum (c : Char) : Bool := isAsciiAlpha c || isAsciiDigit c

/-- Character-list test: the first list is a leading segment of the second. -/
def chPre : List Char → List Char → Bool
  | [], _ => true
  | _ :: _, [] => false
  | a :: as, b :: bs => a == b && chPre as bs

/-- Python `str.strip()` (ASCII whitespace). -/
def pyStrip (s : String) : String :=
  String.mk (((s.toList.dropWhile isPyWs).reverse.dropWhile isPyWs).reverse)

/-- Python `str.startswith`. -/
def pyStartsWith (s pre : String) : Bool := chPre pre.toList s.toList

/-- Python `str.endswith`. -/
def pyEndsWith (s suf : String) : Bool := chPre suf.toList.reverse s.toList.reverse

/-- Python `str.lower()` (ASCII case folding). -/
def pyLower (s : String) : String := String.mk (s.toList.map Char.toLower)

/-- Generic `re.search`: try the position matcher at every start position,
left to right, and return the first success (leftmost match). -/
def searchAt {α : Type} (f : List Char → Option α) : List Char → Option α
  | [] => f []
  | c :: cs =>
    match f (c :: cs) with
    | some m => some m
    | none => searchAt f cs

/-- `[a-zA-Z0-9._%+-]`, the local part of the e-mail pattern. -/
def emailLocalChar (c : Char) : Bool :=
  isAsciiAlnum c || ['.', '_', '%', '+', '-'].contains c

/-- `[a-zA-Z0-9.-]`, the domain part of the e-mail pattern. -/
def emailDomainChar (c : Char) : Bool :=
  isAsciiAlnum c || ['.', '-'].contains c

/-- Try to close the e-mail pattern with domain length `k`: a literal dot at
position `k` followed by the greedy `[a-zA-Z]{2,}` top-level domain. -/
def emailTldAt (r2 : List Char) (k : Nat) : Option (List Char) :=
  match r2.drop k with
  | '.' :: rest =>
    let letters := rest.takeWhile isAsciiAlpha
    if 2 ≤ letters.length then some (r2.take k ++ '.' :: letters) else none
  | _ => none

/-- The backtracking over `[a-zA-Z0-9.-]+`: the engine shrinks the greedy
domain segment from its maximal munch down to length 1. -/
def emailDomainSearch (r2 : List Char) : Option (List Char) :=
  let m := (r2.takeWhile emailDomainChar).length
  ((List.range (m + 1)).reverse.filterMap (fun k =>
    if 1 ≤ k then emailTldAt r2 k else none)).head?

/-- Match `[a-zA-Z0-9._%+-]+@[a-zA-Z0-9.-]+\.[a-zA-Z]{2,}` anchored at the
start of `cs`; since `@` is not a local-part character, the greedy local
munch is forced. -/
def emailMatchAt (cs : List Char) : Option (List Char) :=
  let p1 := cs.takeWhile emailLocalChar
  if p1.isEmpty then none
  else
    match cs.drop p1.length with
    | '@' :: r2 => (emailDomainSearch r2).map (fun d => p1 ++ '@' :: d)
    | _ => none

/-- `re.search` of the e-mail pattern, returning `group(0)`. -/
def searchEmail (s : String) : Option String :=
  (searchAt emailMatchAt s.toList).map String.mk

/-- `\d{3}` at the head, returning the three digits and the rest. -/
def digits3 : List Char → Option (String × List Char)
  | a :: b :: c :: rest =>
    if isAsciiDigit a && isAsciiDigit b && isAsciiDigit c then
      some (String.mk [a, b, c], rest)
    else none
  | _ => none

/-- `(\d{3})\s*(\d{3})\s*(\d{3})` anchored at the head; `\s*` is a forced
maximal munch because whitespace and digits are disjoint. -/
def phoneDigitsAt (cs : List Char) : Option (String × String × String) :=
  match digits3 cs with
  | none => none
  | some (g1, r1) =>
    match digits3 (r1.dropWhile isPyWs) with
    | none => none
    | some (g2, r2) =>
      match digits3 (r2.dropWhile isPyWs) with
      | none => none
      | some (g3, _) => some (g1, g2, g3)

/-- Match `(?:\+420\s*)?(\d{3})\s*(\d{3})\s*(\d{3})` anchored at the head.
When the position starts with `+420` but the digit groups then fail, the
backtracking alternative without the optional group also fails (the position
starts with a plus sign, not a digit), so returning `none` directly is
faithful. -/
def phoneMatchAt (cs : List Char) : Option (String × String × String) :=
  match cs with
  | '+' :: '4' :: '2' :: '0' :: rest => phoneDigitsAt (rest.dropWhile isPyWs)
  | _ => phoneDigitsAt cs

/-- First match of the phone pattern (`re.finditer` + `next(matches, None)`). -/
def searchPhone (s : String) : Option (String × String × String) :=
  searchAt phoneMatchAt s.toList

/-- `[\w\d\-]` of the URL pattern (ASCII `\w`). -/
def urlWordChar (c : Char) : Bool := isAsciiAlnum c || c = '_' || c = '-'

/-- `[\w\d\-\._\/]` of the URL path pattern. -/
def urlPathChar (c : Char) : Bool := urlWordChar c || c = '.' || c = '/'

/-- Split a character list on literal dots. -/
def splitOnDot : List Char → List (List Char)
  | [] => [[]]
  | '.' :: rest => [] :: splitOnDot rest
  | c :: rest =>
    match splitOnDot rest with
    | [] => [[c]]
    | l :: ls => (c :: l) :: ls

/-- `([\w\d\-]+\.)+[\w\d\-]+`: at least two non-empty dot-separated labels of
word characters. -/
def urlHostOk (h : List Char) : Bool :=
  let labels := splitOnDot h
  2 ≤ labels.length && labels.all (fun l => !l.isEmpty && l.all urlWordChar)

/-- `re.match` of `^https?:\/\/([\w\d\-]+\.)+[\w\d\-]+(\/[\w\d\-\._\/]*)*\/?$`:
the host runs to the first slash (its characters cannot contain one), and the
path groups collapse to "empty, or slash-led and made of path characters". -/
def urlRegexOk (s : String) : Bool :=
  let cs := s.toList
  let rest := if chPre "https://".toList cs then some (cs.drop 8)
    else if chPre "http://".toList cs then some (cs.drop 7)
    else none
  match rest with
  | none => false
  | some r =>
    let host := r.takeWhile (fun c => c != '/')
    let path := r.drop host.length
    urlHostOk host && (path.isEmpty || path.all urlPathChar)

namespace ContactsApp

/-- `validate_email` of `contacts-app/validators.py` (identical code also in
`script-contacts-portal-obcana/validators.py`). -/
def validate_email (email : Option String) : Option String :=
  match email with
  | none => none
  | some e =>
    if e = "" then none
    else searchEmail (pyStrip e)

/-- `validate_phone` of `contacts-app/validators.py`. -/
def validate_phone (phone : Option String) : Option String :=
  match phone with
  | none => none
  | some p =>
    if p = "" then none
    else
      match searchPhone p with
      | none => none
      | some (g1, g2, g3) => some ("+420 " ++ g1 ++ " " ++ g2 ++ " " ++ g3)

/-- `validate_url` of `contacts-app/validators.py`. -/
def validate_url (url : Option String) : Option String :=
  match url with
  | none => none
  | some u =>
    if u = "" then none
    else
      let u1 := pyStrip u
      let u2 := if pyStartsWith u1 "http://" || pyStartsWith u1 "https://" then u1
        else "http://" ++ u1
      if urlRegexOk u2 then some u2 else none

end ContactsApp

namespace PortalObcana

/-- `validate_phone` of `script-contacts-portal-obcana/validators.py`
(same body as the contacts-app copy). -/
def validate_phone (phone : Option String) : Option String :=
  match phone with
  | none => none
  | some p =>
    if p = "" then none
    else
      match searchPhone p with
      | none => none
      | some (g1, g2, g3) => some ("+420 " ++ g1 ++ " " ++ g2 ++ " " ++ g3)

end PortalObcana

/-- A dynamically typed Python return value: `None`, a string, or a tuple. -/
inductive PyRet where
  | noneV : PyRet
  | strV : String → PyRet
  | pairV : PyRet → PyRet → PyRet
deriving DecidableEq, Repr

/-- The punctuation accepted by the link pattern of
`script-zpravodaj-app/validators.py`. -/
def linkPunct : List Char :=
  ['-', '.', '_', '~', ':', '/', '?', '#', '[', ']', '@', '!', '$', '&',
   '\'', '(', ')', '*', '+', ',', ';', '=', '%']

/-- One character of the link pattern body: ASCII alphanumerics, the Unicode
range `À-ſ`, the listed punctuation, or whitespace. -/
def linkChar (c : Char) : Bool :=
  isAsciiAlnum c || (0xC0 ≤ c.toNat && c.toNat ≤ 0x17F)
    || linkPunct.contains c || isPyWs c

/-- `re.match` of `^https?://[...]+$` for the link pattern: a scheme then a
non-empty run of accepted characters (scheme backtracking collapses because
`s`, `:` and `/` are themselves accepted characters). -/
def linkRegexOk (s : String) : Bool :=
  let cs := s.toList
  (chPre "http://".toList cs && !(cs.drop 7).isEmpty && (cs.drop 7).all linkChar)
  || (chPre "https://".toList cs && !(cs.drop 8).isEmpty && (cs.drop 8).all linkChar)

namespace ZpravodajApp

/-- `validate_link` of `script-zpravodaj-app/validators.py`. Note the first
branch: on an absent or empty link the source executes `return None, None`,
producing a two-tuple, while every other failure branch returns a bare
`None`. -/
def validate_link (link : Option String) : PyRet :=
  match link with
  | none => PyRet.pairV PyRet.noneV PyRet.noneV
  | some l0 =>
    if l0 = "" then PyRet.pairV PyRet.noneV PyRet.noneV
    else
      let l1 := pyStrip l0
      let l2 := if pyStartsWith l1 "http://" || pyStartsWith l1 "https://" then l1
        else "https://www.orechovubrna.cz" ++ l1
      if !(pyEndsWith (pyLower l2) ".pdf") then PyRet.noneV
      else if !(linkRegexOk l2) then PyRet.noneV
      else PyRet.strV l2

end ZpravodajApp

/-- C9: the claim "every validator maps absent/empty input to None and
format failures to None, within type optional string" fails for
`validate_link`: on absent or empty input it returns the tuple
`(None, None)` — a truthy value that is not `None` — while the e-mail and
phone validators do satisfy the claim. The source intent (every other branch
of `validate_link`, the spec contract, and the sibling validators) makes the
`return None, None` line a code bug. -/
theorem C9_validate_link_returns_pair_on_empty :
    ZpravodajApp.validate_link none = PyRet.pairV PyRet.noneV PyRet.noneV
    ∧ ZpravodajApp.validate_link (some "") = PyRet.pairV PyRet.noneV PyRet.noneV
    ∧ PyRet.pairV PyRet.noneV PyRet.noneV ≠ PyRet.noneV
    ∧ ZpravodajApp.validate_link (some "/files/zpravodaj.pdf")
        = PyRet.strV "https://www.orechovubrna.cz/files/zpravodaj.pdf"
    ∧ ZpravodajApp.validate_link (some "/files/zpravodaj.txt") = PyRet.noneV
    ∧ ContactsApp.validate_email none = none
    ∧ ContactsApp.validate_email (some "") = none
    ∧ ContactsApp.validate_email (some "no address here") = none
    ∧ ContactsApp.validate_email (some " obec@orechovubrna.cz ")
        = some "obec@orechovubrna.cz"
    ∧ PortalObcana.validate_phone none = none
    ∧ PortalObcana.validate_phone (some "") = none
    ∧ PortalObcana.validate_phone (some "no digits") = none
    ∧ PortalObcana.validate_phone (some "+420 547 225 131")
        = some "+420 547 225 131" := by
  decide

/-! ## contacts-app: `parse_school_data` and `ContactDataUpdater.update` -/

/-- The regex layer of `parse_school_data`, passed as an oracle:
`findSchools` models `re.findall` of the school pattern (name/details
pairs); the other fields model the `re.search(...).group(1)` extractions on
one school's details block. -/
structure SchoolRegex where
  findSchools : String → List (String × String)
  findPhone : String → Option String
  findEmail : String → Option String
  findWeb : String → Option String
  findAddress : String → Option String

/-- `parse_school_data` of `contacts-app/config/parsers.py`: build one
`ContactItem` per regex match, then raise (`Except.error`) when no school
was found. -/
def parse_school_data (rx : SchoolRegex) (raw_data : String) :
    Except String (List ContactItem) :=
  let school_data := rx.findSchools raw_data
  let schools := school_data.map (fun nd =>
    ({ title := some (pyStrip nd.1)
       subtitle := none
       address := (rx.findAddress nd.2).map pyStrip
       coordinates := none
       phone := ContactsApp.validate_phone ((rx.findPhone nd.2).map pyStrip)
       phone2 := none
       mail := ContactsApp.validate_email ((rx.findEmail nd.2).map pyStrip)
       web := ContactsApp.validate_url ((rx.findWeb nd.2).map pyStrip)
       facebook := none
       fbId := none
       fbUrl := none
       maintenance := none } : ContactItem))
  if schools = [] then
    Except.error "Error during parsing of data: No schools found"
  else Except.ok schools

/-- `ContactDataUpdater.update`: fetch result, parser behaviour and the
existing-contacts fetch are inputs; an exception anywhere in the `try` block
yields `False` and no write. The returned pair is the boolean result and the
collection written to the store, when any (the Firebase `set` itself is
assumed to succeed). -/
def ContactDataUpdater.update (raw_data : Option String)
    (parser : String → Except String (List ContactItem))
    (existingFetch : Except String (Option (List (Option Record)))) :
    Bool × Option (List (Option Record)) :=
  match raw_data with
  | none => (false, none)
  | some raw =>
    if raw = "" then (false, none)
    else
      match parser raw with
      | Except.error _ => (false, none)
      | Except.ok parsed =>
        match existingFetch with
        | Except.error _ => (false, none)
        | Except.ok existing =>
          match update_contacts parsed existing with
          | none => (false, none)
          | some c =>
            if c.detected then (true, some c.updates) else (true, none)

/-- C3: when the school parser finds zero matches it raises instead of
returning an empty list, so the category's `update` returns `False` and
nothing is written to the store on that run. -/
theorem C3_empty_parse_aborts_without_write (rx : SchoolRegex) (raw : String)
    (existingFetch : Except String (Option (List (Option Record))))
    (h : rx.findSchools raw = []) :
    ContactDataUpdater.update (some raw) (parse_school_data rx) existingFetch
      = (false, none) := by
  by_cases hr : raw = ""
  · subst hr
    rfl
  · have hp : parse_school_data rx raw
        = Except.error "Error during parsing of data: No schools found" := by
      unfold parse_school_data
      rw [h]
      rfl
    simp only [ContactDataUpdater.update, hp, if_neg hr]

/-- A regex oracle whose school pattern matches nothing. -/
def noSchoolRegex : SchoolRegex :=
  ⟨fun _ => [], fun _ => none, fun _ => none, fun _ => none, fun _ => none⟩

theorem C3_empty_parse_aborts_without_write_witness :
    ContactDataUpdater.update (some "page content")
      (parse_school_data noSchoolRegex)
      (Except.ok (some [none, some [("title", "A")]]))
      = (false, none) :=
  C3_empty_parse_aborts_without_write noSchoolRegex "page content"
    (Except.ok (some [none, some [("title", "A")]])) rfl

/-! ## C7: process exit codes of the entry points -/

/-- `main` of `contacts_to_app.py`. `initOk` stands for the configuration
loading, logger setup and `ContactDataUpdater` construction succeeding;
`cats` lists, per configured category, whether `set_contact_type` and then
`update` return `True`. The loop only logs per-category failures; no flag
reaches the return value, so the function returns 0 whenever
initialization succeeded. -/
def contacts_main (initOk : Bool) (cats : List (Bool × Bool)) : Nat :=
  if !initOk then 1
  else
    let _logged := cats.map (fun c => if c.1 then (if c.2 then true else false)
      else false)
    0

/-- `main` of `documents_to_portal_obcana_sync.py`: the loop threads the
`full_update` flag, cleared when `set_folder` or `update` fails, and the
process returns 1 unless every folder fully succeeded. -/
def documents_main (initOk : Bool) (cats : List (Bool × Bool)) : Nat :=
  if !initOk then 1
  else
    let full_update := cats.foldl
      (fun acc c => if c.1 then (if c.2 then acc else false) else false) true
    if !full_update then 1 else 0

/-- `main` of `newspapers_to_app_API.py`: the single category's `update`
raises on failure, caught in `main`, which then returns 1. -/
def newspapers_main (initOk updateOk : Bool) : Nat :=
  if !initOk then 1 else if updateOk then 0 else 1

/-- C7: the documents and newspapers entry points satisfy the exit
contract, but `contacts_to_app.main` returns 0 even when a configured
category's update fails — the claim requires a non-zero exit status there.
Given the explicit spec contract and the sibling scripts implementing it,
the missing failure flag in the contacts `main` is a code bug. -/
theorem C7_contacts_main_ignores_category_failures :
    contacts_main true [(true, false)] = 0
    ∧ contacts_main true [(false, false), (true, true)] = 0
    ∧ documents_main true [(true, false)] = 1
    ∧ documents_main true [(false, true), (true, true)] = 1
    ∧ documents_main true [(true, true), (true, true)] = 0
    ∧ newspapers_main true false = 1
    ∧ newspapers_main true true = 0 := by
  decide

/-! ## Documents sync (`documents_to_portal_obcana_sync.py`) -/

/-- A parsed document from the website listing (`DocumentFile`, without the
folder id, which is fixed in a single-folder run). -/
structure DocumentFile where
  name : String
  url : String
  fileType : String
  fileSize : Int
  mimeType : String
deriving DecidableEq, Repr

/-- One row of the `"File"` table for the current folder. UUIDs are modelled
as naturals drawn from a fresh counter. -/
structure FileRow where
  id : Nat
  name : String
  fileType : String
  fileSize : Int
  content : String
  mimeType : String
  fromWebsite : Bool
deriving DecidableEq, Repr

/-- The `existing_files` dict value: `{'id': .., 'size': .., 'from_website': ..}`. -/
structure FileInfo where
  id : Nat
  size : Int
  from_website : Bool
deriving DecidableEq, Repr

def rowInfo (r : FileRow) : FileInfo := ⟨r.id, r.fileSize, r.fromWebsite⟩

/-- Mutable state of the per-document loop: the `"File"` rows, the
`found_files` set, and the fresh-id counter. -/
structure DocState where
  rows : List FileRow
  found : List String
  nextId : Nat
deriving DecidableEq, Repr

/-- Python `set.add`. -/
def setAdd (s : List String) (x : String) : List String :=
  if s.contains x then s else s ++ [x]

/-- Python `set.remove` (the element is present at every call site). -/
def setRemove (s : List String) (x : String) : List String :=
  s.filter (fun y => y != x)

/-- The SQL `UPDATE "File" SET ... WHERE id = ...` statement. -/
def updateRowById (rows : List FileRow) (rid : Nat) (ftype : String)
    (size : Int) (content mime : String) : List FileRow :=
  rows.map (fun r =>
    if r.id == rid then
      { r with
        fileType := ftype
        fileSize := size
        content := content
        mimeType := mime
        fromWebsite := true }
    else r)

/-- One iteration of the `for doc in documents` loop of
`DocumentSyncUpdater.update`. `download` models
`_download_file_content` (content, mime type, file type; `none` for any of
its failure modes — header failure, size limit, HTTP error). An empty
downloaded content is also treated as a failure (`if not content`). -/
def processDoc (optimize : Bool)
    (download : String → Option (String × String × String))
    (existing_files : List (String × FileInfo)) (st : DocState)
    (doc : DocumentFile) : DocState :=
  let found1 := setAdd st.found doc.name
  match alGet existing_files doc.name with
  | some info =>
    if optimize && (info.size == doc.fileSize) then { st with found := found1 }
    else
      match download doc.url with
      | none => { st with found := setRemove found1 doc.name }
      | some (content, mime, ftype) =>
        if content = "" then { st with found := setRemove found1 doc.name }
        else
          { st with
            found := found1
            rows := updateRowById st.rows info.id ftype doc.fileSize content mime }
  | none =>
    match download doc.url with
    | none => { st with found := setRemove found1 doc.name }
    | some (content, mime, ftype) =>
      if content = "" then { st with found := setRemove found1 doc.name }
      else
        { st with
          found := found1
          rows := st.rows
            ++ [⟨st.nextId, doc.name, ftype, doc.fileSize, content, mime, true⟩]
          nextId := st.nextId + 1 }

/-- The `files_to_remove` set comprehension. -/
def filesToRemove (existing_files : List (String × FileInfo))
    (found : List String) : List String :=
  (existing_files.filter
    (fun p => p.2.from_website && !(found.contains p.1))).map Prod.fst

/-- State after the whole per-document loop. -/
def docFinal (optimize : Bool)
    (download : String → Option (String × String × String))
    (rows0 : List FileRow) (docs : List DocumentFile) (nextId0 : Nat) :
    DocState :=
  docs.foldl
    (processDoc optimize download (alOf (rows0.map (fun r => (r.name, rowInfo r)))))
    ⟨rows0, [], nextId0⟩

/-- Row-level phase of `DocumentSyncUpdater.update` for one folder: read
`existing_files`, process every fetched document, then execute the guarded
`DELETE ... WHERE name = ANY(files_to_remove) AND "fromWebsite" = True`.
Per-document database errors are not modelled (no statement fails here). -/
def DocumentSyncUpdater.update (optimize : Bool)
    (download : String → Option (String × String × String))
    (rows0 : List FileRow) (docs : List DocumentFile) (nextId0 : Nat) :
    List FileRow :=
  let existing_files := alOf (rows0.map (fun r => (r.name, rowInfo r)))
  let final := docFinal optimize download rows0 docs nextId0
  let toRemove := filesToRemove existing_files final.found
  if toRemove.isEmpty then final.rows
  else final.rows.filter (fun r => !(toRemove.contains r.name && r.fromWebsite))

/-! ## C5: deletion scope of the documents sync -/

theorem docRow_tracked (optimize : Bool)
    (download : String → Option (String × String × String))
    (ef : List (String × FileInfo)) (r : FileRow)
    (hinfo : ∀ (n : String) (info : FileInfo), alGet ef n = some info →
      info.id = r.id → n = r.name ∧ info = rowInfo r) :
    ∀ (docs : List DocumentFile) (st : DocState),
    (∃ x ∈ st.rows, x.id = r.id ∧ x.name = r.name ∧
      (x.fromWebsite = true → r.fromWebsite = true
        ∨ alGet ef r.name = some (rowInfo r))) →
    ∃ x ∈ (docs.foldl (processDoc optimize download ef) st).rows,
      x.id = r.id ∧ x.name = r.name ∧
      (x.fromWebsite = true → r.fromWebsite = true
        ∨ alGet ef r.name = some (rowInfo r)) := by
  intro docs
  induction docs with
  | nil => exact fun st h => h
  | cons doc rest ih =>
    intro st h
    rw [List.foldl_cons]
    apply ih
    rcases h with ⟨x, hx, hid, hname, hcond⟩
    cases halg : alGet ef doc.name with
    | none =>
      cases hdl : download doc.url with
      | none =>
        refine ⟨x, ?_, hid, hname, hcond⟩
        simp only [processDoc, halg, hdl]
        exact hx
      | some trip =>
        rcases trip with ⟨content, mime, ftype⟩
        by_cases hct : content = ""
        · refine ⟨x, ?_, hid, hname, hcond⟩
          simp only [processDoc, halg, hdl, hct, if_pos]
          exact hx
        · refine ⟨x, ?_, hid, hname, hcond⟩
          simp only [processDoc, halg, hdl, if_neg hct]
          exact List.mem_append_left _ hx
    | some info =>
      by_cases hopt : (optimize && (info.size == doc.fileSize)) = true
      · refine ⟨x, ?_, hid, hname, hcond⟩
        simp only [processDoc, halg, hopt, if_pos]
        exact hx
      · cases hdl : download doc.url with
        | none =>
          refine ⟨x, ?_, hid, hname, hcond⟩
          simp only [processDoc, halg, hopt, hdl, if_neg, Bool.not_eq_true]
          exact hx
        | some trip =>
          rcases trip with ⟨content, mime, ftype⟩
          by_cases hct : content = ""
          · refine ⟨x, ?_, hid, hname, hcond⟩
            simp only [processDoc, halg, hopt, hdl, hct, if_pos, if_neg,
              Bool.not_eq_true]
            exact hx
          · have hrows : (processDoc optimize download ef st doc).rows
                = updateRowById st.rows info.id ftype doc.fileSize content mime := by
              simp only [processDoc, halg, hopt, hdl, if_neg hct]
              rfl
            rw [hrows]
            by_cases hxid : (x.id == info.id) = true
            · refine ⟨{ x with
                  fileType := ftype
                  fileSize := doc.fileSize
                  content := content
                  mimeType := mime
                  fromWebsite := true }, ?_, hid, hname, ?_⟩
              · have := List.mem_map_of_mem (fun y =>
                    if y.id == info.id then
                      { y with
                        fileType := ftype
                        fileSize := doc.fileSize
                        content := content
                        mimeType := mime
                        fromWebsite := true }
                    else y) hx
                unfold updateRowById
                simpa [hxid] using this
              · intro _
                have hieq : info.id = r.id := by
                  have : x.id = info.id := by simpa using hxid
                  rw [← this, hid]
                rcases hinfo doc.name info halg hieq with ⟨hn, hi⟩
                right
                rw [← hn, halg, hi]
            · refine ⟨x, ?_, hid, hname, hcond⟩
              have := List.mem_map_of_mem (fun y =>
                  if y.id == info.id then
                    { y with
                      fileType := ftype
                      fileSize := doc.fileSize
                      content := content
                      mimeType := mime
                      fromWebsite := true }
                  else y) hx
              unfold updateRowById
              simpa [hxid] using this

theorem filesToRemove_spec (ef : List (String × FileInfo)) (found : List String)
    (hnd : (alKeys ef).Nodup) (n : String)
    (h : (filesToRemove ef found).contains n = true) :
    ∃ info, alGet ef n = some info ∧ info.from_website = true
      ∧ found.contains n = false := by
  have hmem : n ∈ (ef.filter
      (fun p => p.2.from_website && !(found.contains p.1))).map Prod.fst := by
    simpa [filesToRemove, List.contains, List.elem_iff] using h
  rcases List.mem_map.mp hmem with ⟨p, hp, hpn⟩
  have hpe := List.mem_filter.mp hp
  have hpred := hpe.2
  rw [Bool.and_eq_true] at hpred
  refine ⟨p.2, ?_, hpred.1, ?_⟩
  · apply alGet_of_mem_nodup ef n p.2 hnd
    rw [← hpn]
    exact hpe.1
  · have h2 := hpred.2
    rw [← hpn]
    simpa using h2

/-- C5 counterexample: the folder holds one row `N` with `fromWebsite = true`;
the fetch lists a document also named `N` (so its name is present in the
newly fetched documents), but its download fails, so `found_files.remove`
drops it and the removal phase deletes its row. The claim says only rows
whose name is absent from the fetch are removed. -/
theorem C5_counterexample :
    DocumentSyncUpdater.update false (fun _ => none)
      [⟨0, "N", "pdf", 5, "x", "application/pdf", true⟩]
      [⟨"N", "u", "pdf", 6, "application/pdf"⟩] 1
      = []
    ∧ "N" ∈ ([⟨"N", "u", "pdf", 6, "application/pdf"⟩]
        : List DocumentFile).map DocumentFile.name := by
  constructor
  · decide
  · decide

/-- C5, amended: (a) a stored row with `fromWebsite = false` is never
deleted by the documents update — a row with its id and name survives; and
(b) a stored row is deleted only if it has `fromWebsite = true` and its name
is absent from `found_files` at the end of the run — the fetched names whose
processing (including any required download) succeeded; a fetched document
whose download fails does not protect its row. Ids are assumed pairwise
distinct (database primary keys). -/
theorem C5_not_from_website_never_deleted (optimize : Bool)
    (download : String → Option (String × String × String))
    (rows0 : List FileRow) (docs : List DocumentFile) (nextId0 : Nat)
    (hids : (rows0.map FileRow.id).Nodup) :
    (∀ r ∈ rows0, r.fromWebsite = false →
      ∃ x ∈ DocumentSyncUpdater.update optimize download rows0 docs nextId0,
        x.id = r.id ∧ x.name = r.name)
    ∧ (∀ r ∈ rows0,
        (∀ x ∈ DocumentSyncUpdater.update optimize download rows0 docs nextId0,
          ¬(x.id = r.id ∧ x.name = r.name)) →
        r.fromWebsite = true
        ∧ ((docFinal optimize download rows0 docs nextId0).found).contains
            r.name = false) := by
  set ef := alOf (rows0.map (fun r => (r.name, rowInfo r))) with hef
  have hefnodup : (alKeys ef).Nodup := alKeys_alOf_nodup _
  have hinfo : ∀ r ∈ rows0, ∀ (n : String) (info : FileInfo),
      alGet ef n = some info → info.id = r.id →
      n = r.name ∧ info = rowInfo r := by
    intro r hr n info hget hid
    have hbind := alGet_mem ef n info hget
    have hbind2 := mem_alOf _ _ hbind
    rcases List.mem_map.mp hbind2 with ⟨s, hs, hse⟩
    have hsn : s.name = n := congrArg Prod.fst hse
    have hsi : rowInfo s = info := congrArg Prod.snd hse
    have hsid : s.id = r.id := by
      have : (rowInfo s).id = info.id := by rw [hsi]
      simpa [rowInfo, hid] using this
    have hsr : s = r := List.inj_on_of_nodup_map hids hs hr hsid
    constructor
    · rw [← hsn, hsr]
    · rw [← hsi, hsr]
  have htrack : ∀ r ∈ rows0,
      ∃ x ∈ (docFinal optimize download rows0 docs nextId0).rows,
        x.id = r.id ∧ x.name = r.name ∧
        (x.fromWebsite = true → r.fromWebsite = true
          ∨ alGet ef r.name = some (rowInfo r)) := by
    intro r hr
    apply docRow_tracked optimize download ef r (hinfo r hr) docs
    exact ⟨r, hr, rfl, rfl, fun h => Or.inl h⟩
  have hupdate : DocumentSyncUpdater.update optimize download rows0 docs nextId0
      = (if (filesToRemove ef
            (docFinal optimize download rows0 docs nextId0).found).isEmpty then
          (docFinal optimize download rows0 docs nextId0).rows
        else (docFinal optimize download rows0 docs nextId0).rows.filter
          (fun r => !((filesToRemove ef
            (docFinal optimize download rows0 docs nextId0).found).contains r.name
            && r.fromWebsite))) := rfl
  set final := docFinal optimize download rows0 docs nextId0 with hfinal
  set toRemove := filesToRemove ef final.found with htoRemove
  constructor
  · intro r hr hrw
    rcases htrack r hr with ⟨x, hx, hid, hname, hcond⟩
    have hkeep : (!(toRemove.contains x.name && x.fromWebsite)) = true := by
      cases hxw : x.fromWebsite with
      | false => simp
      | true =>
        rcases hcond hxw with hcw | hget
        · rw [hcw] at hrw; cases hrw
        · cases hct : toRemove.contains x.name with
          | false => simp
          | true =>
            exfalso
            rw [hname] at hct
            rcases filesToRemove_spec ef final.found hefnodup r.name hct
              with ⟨info, hget2, hweb, _⟩
            rw [hget] at hget2
            have : info = rowInfo r := by
              have := Option.some_inj.mp hget2
              rw [this]
            rw [this] at hweb
            simp [rowInfo, hrw] at hweb
    rw [hupdate]
    by_cases hemp : toRemove.isEmpty = true
    · rw [if_pos hemp]
      exact ⟨x, hx, hid, hname⟩
    · rw [if_neg hemp]
      exact ⟨x, List.mem_filter.mpr ⟨hx, hkeep⟩, hid, hname⟩
  · intro r hr hdel
    rcases htrack r hr with ⟨x, hx, hid, hname, hcond⟩
    have hnotkeep : ¬((!(toRemove.contains x.name && x.fromWebsite)) = true) := by
      intro hkeep
      by_cases hemp : toRemove.isEmpty = true
      · exact hdel x (by rw [hupdate, if_pos hemp]; exact hx) ⟨hid, hname⟩
      · exact hdel x
          (by rw [hupdate, if_neg hemp]; exact List.mem_filter.mpr ⟨hx, hkeep⟩)
          ⟨hid, hname⟩
    have hboth : toRemove.contains x.name = true ∧ x.fromWebsite = true := by
      cases hb : (!(toRemove.contains x.name && x.fromWebsite)) with
      | true => exact absurd hb hnotkeep
      | false =>
        rw [Bool.not_eq_false', Bool.and_eq_true] at hb
        exact hb
    have hct : toRemove.contains r.name = true := by rw [← hname]; exact hboth.1
    rcases filesToRemove_spec ef final.found hefnodup r.name hct
      with ⟨info, hget2, hweb, hfound⟩
    refine ⟨?_, hfound⟩
    rcases hcond hboth.2 with hcw | hget
    · exact hcw
    · rw [hget] at hget2
      have hieq : info = rowInfo r := by
        have := Option.some_inj.mp hget2
        rw [this]
      rw [hieq] at hweb
      simpa [rowInfo] using hweb

theorem C5_not_from_website_never_deleted_witness :
    ∃ x ∈ DocumentSyncUpdater.update false (fun _ => none)
        [⟨0, "M", "pdf", 5, "x", "application/pdf", false⟩]
        [⟨"W", "u", "pdf", 6, "application/pdf"⟩] 1,
      x.id = (⟨0, "M", "pdf", 5, "x", "application/pdf", false⟩ : FileRow).id
      ∧ x.name = (⟨0, "M", "pdf", 5, "x", "application/pdf", false⟩ : FileRow).name :=
  (C5_not_from_website_never_deleted false (fun _ => none)
      [⟨0, "M", "pdf", 5, "x", "application/pdf", false⟩]
      [⟨"W", "u", "pdf", 6, "application/pdf"⟩] 1 (by decide)).1
    ⟨0, "M", "pdf", 5, "x", "application/pdf", false⟩ (by decide) rfl

/-! ## Newspaper sync (`newspapers_to_app_API.py`) -/

/-- `NewspaperItem`: one release of the newsletter (fields already coerced
to `int` by the constructor). -/
structure NewspaperItem where
  id : Int
  link : String
  release : Int
  year : Int
deriving DecidableEq, Repr

/-- The Firebase node written for one release (the shape of
`NewspaperItem.to_dict`). Stored nodes are assumed well formed — they carry
the four fields this script writes. -/
structure NewsEntry where
  id : Int
  link : String
  release : Int
  year : Int
deriving DecidableEq, Repr

/-- `NewspaperItem.to_dict`. -/
def NewspaperItem.to_dict (it : NewspaperItem) : NewsEntry :=
  ⟨it.id, it.link, it.release, it.year⟩

/-- `ref.child(str(id)).child('link').set(link)`: overwrite only the `link`
field of the node keyed `nid`. `compare_and_update` only issues this write
for ids it just read from the same route, so the node exists. -/
def setChildLink (store : List (Int × NewsEntry)) (nid : Int) (link : String) :
    List (Int × NewsEntry) :=
  store.map (fun p => if p.1 == nid then (p.1, { p.2 with link := link }) else p)

/-- `NewspaperUpdater.get_existing_data`: any failure while reading (or an
empty route) yields the empty mapping instead of propagating the error.
Keys are modelled as `Int` directly (the `int(k)` conversion). -/
def get_existing_data (fetch : Except String (Option (List (Int × NewsEntry)))) :
    List (Int × NewsEntry) :=
  match fetch with
  | Except.error _ => []
  | Except.ok none => []
  | Except.ok (some d) => d

/-- Result of `compare_and_update`: the store after the writes, plus the
`changes_detected` flag and the two summary lists. -/
structure CompareResult where
  store : List (Int × NewsEntry)
  changes_detected : Bool
  link_updates : List Int
  new_items_added : List Int
deriving DecidableEq, Repr

/-- One iteration of the `for id, new_item in new_dict.items()` loop. -/
def compareStep (existing_data : List (Int × NewsEntry)) (acc : CompareResult)
    (p : Int × NewsEntry) : CompareResult :=
  match alGet existing_data p.1 with
  | some ex =>
    if ex.link != p.2.link then
      { acc with
        store := setChildLink acc.store p.1 p.2.link
        changes_detected := true
        link_updates := acc.link_updates ++ [p.1] }
    else acc
  | none =>
    { acc with
      store := alSet acc.store p.1 p.2
      changes_detected := true
      new_items_added := acc.new_items_added ++ [p.1] }

/-- `NewspaperUpdater.compare_and_update`. In the source the writes go to
the same Firebase route that `existing_data` was just read from; `store0` is
that route's current content (so callers pass `store0 = existing_data`). -/
def compare_and_update (new_items : List NewspaperItem)
    (existing_data : List (Int × NewsEntry))
    (store0 : List (Int × NewsEntry)) : CompareResult :=
  let new_dict := alOf (new_items.map (fun it => (it.id, it.to_dict)))
  new_dict.foldl (compareStep existing_data) ⟨store0, false, [], []⟩

theorem alGet_setChildLink_self (store : List (Int × NewsEntry)) (nid : Int)
    (link : String) :
    alGet (setChildLink store nid link) nid
      = (alGet store nid).map (fun e => { e with link := link }) := by
  induction store with
  | nil => rfl
  | cons p t ih =>
    unfold setChildLink at ih ⊢
    rw [List.map_cons]
    by_cases hp : (p.1 == nid) = true
    · rw [if_pos hp, alGet_cons, alGet_cons]
      simp only [hp, if_pos]
      rfl
    · simp only [Bool.not_eq_true] at hp
      rw [if_neg (by simp [hp]), alGet_cons, alGet_cons]
      simp only [hp, Bool.false_eq_true, if_false]
      exact ih

theorem alGet_setChildLink_ne (store : List (Int × NewsEntry)) (nid k : Int)
    (link : String) (h : k ≠ nid) :
    alGet (setChildLink store nid link) k = alGet store k := by
  induction store with
  | nil => rfl
  | cons p t ih =>
    unfold setChildLink at ih ⊢
    rw [List.map_cons]
    by_cases hp : (p.1 == nid) = true
    · have hpk : (p.1 == k) = false := by
        have h1 : p.1 = nid := by simpa using hp
        simp [h1, beq_eq_false_iff_ne]
        exact fun hc => h hc.symm
      rw [if_pos hp, alGet_cons, alGet_cons]
      simp only [hpk, Bool.false_eq_true, if_false]
      exact ih
    · simp only [Bool.not_eq_true] at hp
      rw [if_neg (by simp [hp]), alGet_cons, alGet_cons]
      by_cases hk : (p.1 == k) = true
      · simp [hk]
      · simp only [Bool.not_eq_true] at hk
        simp only [hk, Bool.false_eq_true, if_false]
        exact ih

theorem compareStep_preserves_ne (existing : List (Int × NewsEntry))
    (acc : CompareResult) (b : Int × NewsEntry) (k : Int) (h : b.1 ≠ k) :
    alGet (compareStep existing acc b).store k = alGet acc.store k := by
  unfold compareStep
  cases halg : alGet existing b.1 with
  | some ex =>
    by_cases hd : (ex.link != b.2.link) = true
    · simp only [halg, hd, if_pos]
      exact alGet_setChildLink_ne acc.store b.1 k b.2.link (fun hc => h hc.symm)
    · simp only [Bool.not_eq_true] at hd
      simp only [halg, hd, Bool.false_eq_true, if_false]
  | none =>
    simp only [halg]
    exact alGet_alSet_ne acc.store b.1 k b.2 (fun hc => h hc.symm)

theorem compare_fold_link_update (existing : List (Int × NewsEntry))
    (nid : Int) (item ex : NewsEntry)
    (hex : alGet existing nid = some ex)
    (hdiff : ex.link ≠ item.link) :
    ∀ (bs : List (Int × NewsEntry)) (acc : CompareResult),
    (alKeys bs).Nodup →
    (((nid, item) ∈ bs ∧ alGet acc.store nid = some ex)
      ∨ (alGet acc.store nid = some { ex with link := item.link }
          ∧ nid ∉ alKeys bs)) →
    alGet ((bs.foldl (compareStep existing) acc).store) nid
      = some { ex with link := item.link } := by
  intro bs
  induction bs with
  | nil =>
    intro acc _ h
    rcases h with ⟨hmem, _⟩ | ⟨hget, _⟩
    · simp at hmem
    · exact hget
  | cons b t ih =>
    intro acc hnd h
    rw [alKeys, List.map_cons, List.nodup_cons] at hnd
    rw [List.foldl_cons]
    rcases h with ⟨hmem, hget⟩ | ⟨hget, hnk⟩
    · by_cases hb : b.1 = nid
      · have hbe : b = (nid, item) := by
          rcases List.mem_cons.mp hmem with he | ht
          · exact he.symm
          · exfalso
            apply hnd.1
            rw [hb]
            simp only [alKeys, List.mem_map]
            exact ⟨(nid, item), ht, rfl⟩
        apply ih _ hnd.2
        right
        constructor
        · rw [hbe]
          unfold compareStep
          simp only [hex]
          have hd : (ex.link != item.link) = true := by
            simpa using hdiff
          simp only [hd, if_pos]
          rw [alGet_setChildLink_self, hget]
          rfl
        · intro hc
          apply hnd.1
          rw [hb]
          exact hc
      · have hmem2 : (nid, item) ∈ t := by
          rcases List.mem_cons.mp hmem with he | ht
          · exfalso; apply hb; rw [← he]
          · exact ht
        apply ih _ hnd.2
        left
        exact ⟨hmem2, by rw [compareStep_preserves_ne existing acc b nid hb, hget]⟩
    · have hb : b.1 ≠ nid := by
        intro hc
        apply hnk
        rw [← hc]
        exact List.mem_cons_self _ _
      apply ih _ hnd.2
      right
      refine ⟨?_, ?_⟩
      · rw [compareStep_preserves_ne existing acc b nid hb, hget]
      · intro hc
        exact hnk (List.mem_cons_of_mem _ hc)

/-- C8: when a stored id has a link differing from the newly parsed one,
`compare_and_update` (run against the store it just read) rewrites only the
`link` child of that entry: the resulting node keeps the stored `id`,
`release` and `year` values and carries the new link. -/
theorem C8_link_change_rewrites_only_link (new_items : List NewspaperItem)
    (existing : List (Int × NewsEntry)) (nid : Int) (item ex : NewsEntry)
    (hitem : alGet (alOf (new_items.map (fun it => (it.id, it.to_dict)))) nid
      = some item)
    (hex : alGet existing nid = some ex)
    (hdiff : ex.link ≠ item.link) :
    alGet (compare_and_update new_items existing existing).store nid
      = some ⟨ex.id, item.link, ex.release, ex.year⟩ := by
  have hbind : (nid, item) ∈ alOf (new_items.map (fun it => (it.id, it.to_dict))) :=
    alGet_mem _ _ _ hitem
  have hnd : (alKeys (alOf (new_items.map (fun it => (it.id, it.to_dict))))).Nodup :=
    alKeys_alOf_nodup _
  have h := compare_fold_link_update existing nid item ex hex hdiff
    (alOf (new_items.map (fun it => (it.id, it.to_dict))))
    ⟨existing, false, [], []⟩ hnd (Or.inl ⟨hbind, hex⟩)
  exact h

theorem C8_link_change_rewrites_only_link_witness :
    alGet (compare_and_update
        [⟨202401, "https://orechovubrna.cz/new.pdf", 1, 2024⟩]
        [((202401 : Int), ⟨202401, "https://orechovubrna.cz/old.pdf", 1, 2024⟩)]
        [((202401 : Int), ⟨202401, "https://orechovubrna.cz/old.pdf", 1, 2024⟩)]).store
      202401
    = some ⟨202401, "https://orechovubrna.cz/new.pdf", 1, 2024⟩ :=
  C8_link_change_rewrites_only_link
    [⟨202401, "https://orechovubrna.cz/new.pdf", 1, 2024⟩]
    [((202401 : Int), ⟨202401, "https://orechovubrna.cz/old.pdf", 1, 2024⟩)]
    202401
    ⟨202401, "https://orechovubrna.cz/new.pdf", 1, 2024⟩
    ⟨202401, "https://orechovubrna.cz/old.pdf", 1, 2024⟩
    (by decide) (by decide) (by decide)

/-! ## C10: read failure falls back to an empty mapping -/

theorem compare_fold_added_empty (acc : CompareResult) :
    ∀ (bs : List (Int × NewsEntry)),
    ((bs.foldl (compareStep []) acc).new_items_added)
      = acc.new_items_added ++ alKeys bs := by
  intro bs
  induction bs generalizing acc with
  | nil => simp [alKeys]
  | cons b t ih =>
    rw [List.foldl_cons, ih]
    unfold compareStep
    simp only [alGet_nil]
    simp [alKeys]

theorem compare_fold_store_preserved (k : Int) :
    ∀ (bs : List (Int × NewsEntry)) (acc : CompareResult),
    k ∉ alKeys bs →
    alGet ((bs.foldl (compareStep []) acc).store) k = alGet acc.store k := by
  intro bs
  induction bs with
  | nil => exact fun acc _ => rfl
  | cons b t ih =>
    intro acc hk
    rw [alKeys, List.map_cons] at hk
    rw [List.foldl_cons, ih _ (fun hc => hk (List.mem_cons_of_mem _ hc))]
    exact compareStep_preserves_ne [] acc b k
      (fun hc => hk (hc ▸ List.mem_cons_self _ _))

theorem compare_fold_store_sets (k : Int) (v : NewsEntry) :
    ∀ (bs : List (Int × NewsEntry)) (acc : CompareResult),
    (alKeys bs).Nodup → (k, v) ∈ bs →
    alGet ((bs.foldl (compareStep []) acc).store) k = some v := by
  intro bs
  induction bs with
  | nil => intro acc _ h; simp at h
  | cons b t ih =>
    intro acc hnd hmem
    rw [alKeys, List.map_cons, List.nodup_cons] at hnd
    rw [List.foldl_cons]
    rcases List.mem_cons.mp hmem with he | ht
    · have hkt : k ∉ alKeys t := by
        intro hc
        apply hnd.1
        rw [← he]
        exact hc
      rw [compare_fold_store_preserved k t _ hkt]
      unfold compareStep
      simp only [alGet_nil]
      rw [← he]
      exact alGet_alSet_self acc.store k v
    · exact ih _ hnd.2 ht

/-- C10: if reading the existing data fails, `get_existing_data` returns the
empty mapping instead of propagating the error, and `compare_and_update`
then classifies every fetched item as new (its id lands in
`new_items_added`) and writes its entry (the last fetched record for that
id) to the store. -/
theorem C10_read_failure_all_items_added (msg : String)
    (new_items : List NewspaperItem) (store0 : List (Int × NewsEntry)) :
    get_existing_data (Except.error msg) = []
    ∧ ∀ item ∈ new_items,
        item.id ∈ (compare_and_update new_items
          (get_existing_data (Except.error msg)) store0).new_items_added
        ∧ ∃ v, alGet (alOf (new_items.map (fun it => (it.id, it.to_dict))))
              item.id = some v
          ∧ alGet (compare_and_update new_items
              (get_existing_data (Except.error msg)) store0).store item.id
            = some v := by
  refine ⟨rfl, ?_⟩
  intro item hitem
  set nd := alOf (new_items.map (fun it => (it.id, it.to_dict))) with hnd
  have hmemk : item.id ∈ alKeys nd := by
    apply (mem_keys_alOf _ _).mpr
    rw [List.map_map]
    exact List.mem_map.mpr ⟨item, hitem, rfl⟩
  have hnodup : (alKeys nd).Nodup := alKeys_alOf_nodup _
  have hsome : (alGet nd item.id).isSome = true := by
    rw [alGet_isSome_iff]
    exact (alHas_iff_mem_keys _ _).mpr hmemk
  rcases Option.isSome_iff_exists.mp hsome with ⟨v, hv⟩
  constructor
  · show item.id ∈ (nd.foldl (compareStep []) ⟨store0, false, [], []⟩).new_items_added
    rw [compare_fold_added_empty]
    simpa using hmemk
  · refine ⟨v, hv, ?_⟩
    show alGet ((nd.foldl (compareStep []) ⟨store0, false, [], []⟩).store) item.id
      = some v
    exact compare_fold_store_sets item.id v nd _ hnodup (alGet_mem _ _ _ hv)

theorem C10_read_failure_all_items_added_witness :
    get_existing_data (Except.error "connection refused") = []
    ∧ (⟨202401, "https://orechovubrna.cz/a.pdf", 1, 2024⟩ : NewspaperItem).id
        ∈ (compare_and_update
            [⟨202401, "https://orechovubrna.cz/a.pdf", 1, 2024⟩]
            (get_existing_data (Except.error "connection refused")) []).new_items_added
    ∧ ∃ v, alGet (alOf (([⟨202401, "https://orechovubrna.cz/a.pdf", 1, 2024⟩]
            : List NewspaperItem).map (fun it => (it.id, it.to_dict))))
          (202401 : Int) = some v
        ∧ alGet (compare_and_update
            [⟨202401, "https://orechovubrna.cz/a.pdf", 1, 2024⟩]
            (get_existing_data (Except.error "connection refused")) []).store
          (202401 : Int) = some v := by
  have h := C10_read_failure_all_items_added "connection refused"
    [⟨202401, "https://orechovubrna.cz/a.pdf", 1, 2024⟩] []
  refine ⟨h.1, ?_, ?_⟩
  · exact (h.2 ⟨202401, "https://orechovubrna.cz/a.pdf", 1, 2024⟩
      (List.mem_cons_self _ _)).1
  · exact (h.2 ⟨202401, "https://orechovubrna.cz/a.pdf", 1, 2024⟩
      (List.mem_cons_self _ _)).2
